import Mathlib

/-!
Verification of the application/consensus bridge of go-tangerine.

This file gives a shallow embedding of:
  * `dex/app.go` (`DexconApp`: `PreparePayload`, `VerifyBlock`, `validateNonce`),
  * the LevelDB-backed compaction-chain store (`PutCompactionChainTipInfo`),
  * the consensus-core `types` codec helpers (`rlpTimestamp`, `BlocksByPosition`),
  * the `peerSet` topology manager (`BuildConnection` / `ForgetConnection` /
    `BuildNotaryConn` / `ForgetNotaryConn` / `BuildDKGConn` / `ForgetDKGConn`,
    `addLabel` / `removeLabel` / `addDirectPeer` / `removeDirectPeer`).

Machine integers (`uint64`) are modeled as `Nat` with explicit `% 2 ^ 64`
wherever the Go code can wrap; `*big.Int` quantities are modeled as `Nat`/`Int`
(Go big integers are arbitrary precision).  External collaborators (EVM state,
transaction pool, governance, RLP codec, signature recovery) are fields of a
`World` record, so every theorem quantifies over all possible behaviours of
those collaborators.
-/

set_option linter.unusedVariables false

namespace Dex

/-- `2^64`, the wrap-around modulus of Go's `uint64` arithmetic. -/
def u64Mod : Nat := 2 ^ 64

/-- Return code of `core.Application.VerifyBlock`
(`VerifyOK = 0`, `VerifyRetryLater = 1`, `VerifyInvalidBlock = 2`,
`src/unnamed/part_001` lines 39-47). -/
inductive BlockVerifyStatus where
  | verifyOK
  | verifyRetryLater
  | verifyInvalidBlock
deriving DecidableEq, Repr

/-- Consensus block position (`Position { round, chain_id, height }`). -/
structure Position where
  round : Nat
  chainID : Nat
  height : Nat
deriving DecidableEq, Repr

/-- The part of a consensus-core block (`coreTypes.Block`) read by
`DexconApp.VerifyBlock`: position, opaque payload bytes and the witness. -/
structure CoreBlock where
  position : Position
  payload : List Nat
  witnessHeight : Nat
  witnessData : List Nat
deriving DecidableEq, Repr

/-- A signed transaction as observed by the bridge.  `sender` is the address
recovered from the signature (`msg.From()`); `sigOK` records whether signature
recovery (`tx.AsMessage` / `GlobalSigCache.Add`) succeeds.  Addresses are the
canonical big-endian integer of the 20-byte address (`address.Big()`). -/
structure Tx where
  sender : Nat
  sigOK : Bool
  nonce : Nat
  gas : Nat
  gasPrice : Nat
  value : Nat
  data : List Nat
  toNone : Bool
deriving DecidableEq, Repr

/-- `tx.Cost() = gas * gasPrice + value` (big.Int arithmetic, exact). -/
def Tx.cost (t : Tx) : Nat := t.gas * t.gasPrice + t.value

/-- A committed state view (`state.StateDB` obtained from `StateAt(root)`):
per-address balance (`GetBalance`, a non-negative big.Int) and nonce
(`GetNonce`, uint64). -/
structure StateView where
  balance : Nat → Nat
  nonce : Nat → Nat

/-- Witness block data used by `VerifyBlock` (`GetBlockByNumber` result):
its hash and state root. -/
structure ChainBlock where
  hash : Nat
  root : Nat

/-- The environment of `DexconApp`: governance, blockchain, tx pool and codec
oracles.  Each field models one call the app makes on a collaborator:
  * `numChains r` — `gov.Configuration(r).NumChains` / `gov.GetNumChains(r)`;
  * `govBlockGasLimit r` — `gov.DexconConfiguration(r).BlockGasLimit`;
  * `deliveredRound` — `rawdb.ReadLastRoundNumber(chainDB)`;
  * `chainLastConfirmedHeight c` — `blockchain.GetChainLastConfirmedHeight(c)`;
  * `chainRoot c` — the `chainRoot` sync.Map entry for chain `c`;
  * `stateAt h` — `blockchain.StateAt(h)` (`none` models an error);
  * `currentNumber` / `currentGasLimit` — `CurrentBlock().NumberU64()` /
    `CurrentBlock().GasLimit()`;
  * `blockByNumber n` — `blockchain.GetBlockByNumber(n)`;
  * `costInConfirmedBlocks c a` — `blockchain.GetCostInConfirmedBlocks(c, a)`;
  * `lastNonceInConfirmedBlocks c a` —
    `blockchain.GetLastNonceInConfirmedBlocks(c, a)`;
  * `pending` — `txPool.Pending()` (`none` models an error); addresses are
    listed in the (arbitrary) iteration order of the Go map, each with its
    nonce-ascending transaction queue;
  * `decodeHashWitness` — `rlp.DecodeBytes(witness.Data, &common.Hash)`;
  * `decodeTxs` — `rlp.DecodeBytes(block.Payload, &types.Transactions)`;
  * `encodeTxs` — `rlp.EncodeToBytes(&allTxs)`;
  * `intrinsicGas data contractCreation` — `core.IntrinsicGas(data, ..., true)`
    (`none` models its error return). -/
structure World where
  numChains : Nat → Nat
  govBlockGasLimit : Nat → Nat
  deliveredRound : Nat
  chainLastConfirmedHeight : Nat → Option Nat
  chainRoot : Nat → Option Nat
  stateAt : Nat → Option StateView
  currentNumber : Nat
  currentGasLimit : Nat
  blockByNumber : Nat → Option ChainBlock
  costInConfirmedBlocks : Nat → Nat → Option Nat
  lastNonceInConfirmedBlocks : Nat → Nat → Option Nat
  pending : Option (List (Nat × List Tx))
  decodeHashWitness : List Nat → Option Nat
  decodeTxs : List Nat → Option (List Tx)
  encodeTxs : List Tx → List Nat
  intrinsicGas : List Nat → Bool → Option Nat

/-- `DexconApp.addrBelongsToChain`: `address.Big() mod chainSize == chainID`
(app.go lines 66-68).  `chainSize = 0` would panic in Go; `Nat` gives
`address % 0 = address`, a value never equal to a valid chain id below it. -/
def addrBelongsToChain (address chainSize chainID : Nat) : Bool :=
  address % chainSize == chainID

/-- Point update of an association list (Go map assignment to a present key). -/
def assocSet {α : Type} (l : List (Nat × α)) (k : Nat) (v : α) : List (Nat × α) :=
  l.map fun e => if e.1 = k then (k, v) else e

/-- Go map read on an association list (`nil`/zero value when absent). -/
def assocLookup {α : Type} : List (Nat × α) → Nat → Option α
  | [], _ => none
  | e :: t, k => if e.1 = k then some e.2 else assocLookup t k

/-- Accumulator loop of `DexconApp.validateNonce` (app.go lines 103-125).
The two Go maps `addressFirstNonce` and `addressNonce` always have the same
keys and are updated in lockstep, so they are modeled as one association list
`sender ↦ (firstNonce, lastNonce)` in insertion order.  `uint64` increment of
the last nonce wraps (`% u64Mod`). -/
def validateNonceGo : List Tx → List (Nat × Nat × Nat) → Option (List (Nat × Nat × Nat))
  | [], acc => some acc
  | tx :: rest, acc =>
    if tx.sigOK = false then none
    else
      match assocLookup acc tx.sender with
      | some fl =>
        if (fl.2 + 1) % u64Mod ≠ tx.nonce then none
        else validateNonceGo rest (assocSet acc tx.sender (fl.1, tx.nonce))
      | none => validateNonceGo rest (acc ++ [(tx.sender, tx.nonce, tx.nonce)])

/-- `DexconApp.validateNonce`: checks that the nonces of each sender are
consecutive in payload order and returns the first nonce of every address. -/
def validateNonce (txs : List Tx) : Option (List (Nat × Nat)) :=
  (validateNonceGo txs []).map (List.map fun e => (e.1, e.2.1))

/-- Expected next nonce of an address on a chain (`VerifyBlock` lines 424-430
and `preparePayload` lines 244-250): last nonce in confirmed-but-undelivered
blocks plus one (uint64 wrap) when present, else the committed state nonce. -/
def expectNonce (w : World) (chainID : Nat) (st : StateView) (address : Nat) : Nat :=
  match w.lastNonceInConfirmedBlocks chainID address with
  | some n => (n + 1) % u64Mod
  | none => st.nonce address

/-- `addressesBalance` built by `VerifyBlock` (lines 438-447): committed
balance minus the speculative cost already spoken for on this chain.  The
difference can be negative, hence `Int`. -/
def addressesBalance (w : World) (chainID : Nat) (st : StateView)
    (m : List (Nat × Nat)) : List (Nat × Int) :=
  m.map fun e =>
    (e.1,
      match w.costInConfirmedBlocks chainID e.1 with
      | some cost => (st.balance e.1 : Int) - (cost : Int)
      | none => (st.balance e.1 : Int))

/-- The per-transaction validation loop of `VerifyBlock` (lines 453-482):
signature recovery, intrinsic-gas floor, sequential balance check and the
block-gas accumulation against `CurrentBlock().GasLimit()`.  Returns `true`
when every transaction passes (the loop falls through to `VerifyOK`).
The balance of an absent sender defaults to `0`; this branch is unreachable
because `addressesBalance` covers every sender accepted by `validateNonce`. -/
def verifyTxLoop (w : World) (limit : Nat) :
    List Tx → List (Nat × Int) → Nat → Bool
  | [], _, _ => true
  | tx :: rest, balances, gasUsed =>
    if tx.sigOK = false then false
    else
      let balance := (assocLookup balances tx.sender).getD 0
      match w.intrinsicGas tx.data tx.toNone with
      | none => false
      | some intrGas =>
        if tx.gas < intrGas then false
        else
          let balance := balance - (tx.cost : Int)
          if balance < 0 then false
          else
            let gasUsed := gasUsed + tx.gas
            if limit < gasUsed then false
            else verifyTxLoop w limit rest (assocSet balances tx.sender balance) gasUsed

/-- `DexconApp.VerifyBlock` (app.go lines 312-485), stage by stage in source
order: witness decode, witness height, witness block lookup and hash match,
witness state, chain-height gate, round-reshape gate, chain root and state,
empty payload, payload decode, signature cache, nonce validation, per-address
chain-routing and expected-nonce checks, then the per-transaction loop. -/
def verifyBlock (w : World) (b : CoreBlock) : BlockVerifyStatus :=
  match w.decodeHashWitness b.witnessData with
  | none => .verifyInvalidBlock
  | some witnessBlockHash =>
    if w.currentNumber < b.witnessHeight then .verifyRetryLater
    else
      match w.blockByNumber b.witnessHeight with
      | none => .verifyInvalidBlock
      | some wb =>
        if wb.hash ≠ witnessBlockHash then .verifyInvalidBlock
        else if (w.stateAt wb.root).isNone then .verifyInvalidBlock
        else if b.position.height ≠ 0 ∧
            w.chainLastConfirmedHeight b.position.chainID ≠ some (b.position.height - 1) then
          .verifyRetryLater
        else if 0 < b.position.round ∧
            w.numChains (b.position.round - 1) ≠ w.numChains b.position.round ∧
            w.deliveredRound < b.position.round then
          if 0 < b.payload.length then .verifyInvalidBlock else .verifyOK
        else
          match w.chainRoot b.position.chainID with
          | none => .verifyRetryLater
          | some root =>
            match w.stateAt root with
            | none => .verifyInvalidBlock
            | some currentState =>
              if b.payload = [] then .verifyOK
              else
                match w.decodeTxs b.payload with
                | none => .verifyInvalidBlock
                | some transactions =>
                  if transactions.all (·.sigOK) = false then .verifyInvalidBlock
                  else
                    match validateNonce transactions with
                    | none => .verifyInvalidBlock
                    | some addressNonce =>
                      if addressNonce.all (fun e =>
                          addrBelongsToChain e.1 (w.numChains b.position.round) b.position.chainID &&
                          (expectNonce w b.position.chainID currentState e.1 == e.2)) = false then
                        .verifyInvalidBlock
                      else if verifyTxLoop w w.currentGasLimit transactions
                          (addressesBalance w b.position.chainID currentState addressNonce) 0 then
                        .verifyOK
                      else .verifyInvalidBlock

/-- Errors produced by the inner `preparePayload` worker (app.go lines
167-288): `PreviousBlockNotExists` (line 200), a `StateAt` failure (line 211),
a `txPool.Pending()` failure (line 217) and an `IntrinsicGas` failure
(line 265).  `rlp.EncodeToBytes` errors are not modeled (`encodeTxs` is total). -/
inductive PrepErr where
  | prevBlockNotExists
  | stateErr
  | pendingErr
  | intrinsicGasErr
deriving DecidableEq, Repr

/-- What `PreparePayload` hands back to the consensus caller. -/
structure PrepResult where
  payload : List Nat
  err : Option PrepErr
deriving DecidableEq, Repr

/-- Signal of the inner transaction loop: continue with the next address
(`break` of the inner loop), abort the whole address map (`break addressMap`),
or fail with an error (`return nil, err`). -/
inductive LoopSig where
  | cont
  | stopAll
  | fail (e : PrepErr)
deriving DecidableEq, Repr

/-- Reinterpret a `uint64` value as Go's `int64` (two's complement). -/
def toInt64 (n : Nat) : Int :=
  if n < 2 ^ 63 then (n : Int) else (n : Int) - (2 ^ 64 : Int)

/-- Go's `int(expectNonce - firstNonce)`: wrapping `uint64` subtraction
reinterpreted as a signed integer (app.go line 257). -/
def wrapSub64 (a b : Nat) : Int :=
  toInt64 ((a % u64Mod + u64Mod - b % u64Mod) % u64Mod)

/-- The per-transaction loop of `preparePayload` (app.go lines 260-284) over
one address's queue slice: intrinsic-gas floor (an `IntrinsicGas` error aborts
with an error, a too-low gas breaks the address), sequential balance check,
and block-gas accumulation (`big.NewInt(int64(tx.Gas()))`, hence the `int64`
reinterpretation) against `CurrentBlock().GasLimit()`; exceeding it breaks the
whole address map before appending the transaction. -/
def prepareTxs (w : World) (limit : Int) :
    List Tx → Int → Int → List Tx → List Tx × Int × LoopSig
  | [], _, gasUsed, acc => (acc, gasUsed, .cont)
  | tx :: rest, balance, gasUsed, acc =>
    match w.intrinsicGas tx.data tx.toNone with
    | none => (acc, gasUsed, .fail .intrinsicGasErr)
    | some intrGas =>
      if tx.gas < intrGas then (acc, gasUsed, .cont)
      else
        let balance := balance - (tx.cost : Int)
        if balance < 0 then (acc, gasUsed, .cont)
        else
          let gasUsed := gasUsed + toInt64 tx.gas
          if limit < gasUsed then (acc, gasUsed, .stopAll)
          else prepareTxs w limit rest balance gasUsed (acc ++ [tx])

/-- The address loop of `preparePayload` (app.go lines 226-285).  `fuel` is
the number of addresses the worker can visit before the soft-deadline context
fires (the `select` at the top of each iteration); when it reaches zero the
loop breaks and whatever was accumulated is encoded.  Each address is skipped
unless it routes to this chain; its effective balance is the committed balance
minus the confirmed-block cost overlay; `startIndex` may be negative or past
the queue end, in which case the inner loop body never runs. -/
def prepareAddrs (w : World) (position : Position) (st : StateView) (limit : Int) :
    List (Nat × List Tx) → Nat → Int → List Tx → Except PrepErr (List Tx)
  | [], _, _, acc => .ok acc
  | (address, txs) :: rest, fuel, gasUsed, acc =>
    if fuel = 0 then .ok acc
    else if ¬ addrBelongsToChain address (w.numChains position.round) position.chainID then
      prepareAddrs w position st limit rest (fuel - 1) gasUsed acc
    else
      let balance : Int :=
        match w.costInConfirmedBlocks position.chainID address with
        | some cost => (st.balance address : Int) - (cost : Int)
        | none => (st.balance address : Int)
      let expect : Nat := expectNonce w position.chainID st address
      match txs with
      | [] => prepareAddrs w position st limit rest (fuel - 1) gasUsed acc
      | tx0 :: _ =>
        let startIndex : Int := wrapSub64 expect tx0.nonce
        if startIndex < 0 ∨ (txs.length : Int) ≤ startIndex then
          prepareAddrs w position st limit rest (fuel - 1) gasUsed acc
        else
          match prepareTxs w limit (txs.drop startIndex.toNat) balance gasUsed acc with
          | (acc, gasUsed, .cont) => prepareAddrs w position st limit rest (fuel - 1) gasUsed acc
          | (acc, _, .stopAll) => .ok acc
          | (_, _, .fail e) => .error e

/-- The inner worker `DexconApp.preparePayload` (app.go lines 167-288), in
source order: the post-lock `ctx.Done()` check (`startCancelled`), the
round-reshape gate (returns `nil, nil`), the strict chain-height check
(`previous block not exists`), the chain root (absent returns `nil, nil`),
the committed state, the pending pool, the address loop, and finally
`rlp.EncodeToBytes(&allTxs)`. -/
def preparePayloadInner (w : World) (position : Position)
    (startCancelled : Bool) (fuel : Nat) : Except PrepErr (List Nat) :=
  if startCancelled then .ok []
  else if 0 < position.round ∧
      w.numChains (position.round - 1) ≠ w.numChains position.round ∧
      w.deliveredRound < position.round then
    .ok []
  else if position.height ≠ 0 ∧
      w.chainLastConfirmedHeight position.chainID ≠ some (position.height - 1) then
    .error .prevBlockNotExists
  else
    match w.chainRoot position.chainID with
    | none => .ok []
    | some root =>
      match w.stateAt root with
      | none => .error .stateErr
      | some currentState =>
        match w.pending with
        | none => .error .pendingErr
        | some txsMap =>
          match prepareAddrs w position currentState (w.currentGasLimit : Int)
              txsMap fuel 0 [] with
          | .ok allTxs => .ok (w.encodeTxs allTxs)
          | .error e => .error e

/-- The outer `DexconApp.PreparePayload` (app.go lines 128-165).  The worker
runs under a soft deadline (`startCancelled`, `fuel`); `workerDone` says
whether it finished before the 150 ms hard deadline fired.  If it did, an
inner error is surfaced to the caller (`case err = <-errCh`), otherwise the
prepared payload is returned; if the hard deadline fired first, both channels
are empty and the zero values — `nil` payload, `nil` error — are returned. -/
def preparePayloadOuter (w : World) (position : Position)
    (workerDone startCancelled : Bool) (fuel : Nat) : PrepResult :=
  if workerDone then
    match preparePayloadInner w position startCancelled fuel with
    | .error e => { payload := [], err := some e }
    | .ok payload => { payload := payload, err := none }
  else { payload := [], err := none }

end Dex

namespace DB

/-- `compactionChainTipInfo` (src/unnamed/part_000 lines 38-41). -/
structure CompactionChainTipInfo where
  height : Nat
  hash : Nat
deriving DecidableEq, Repr

/-- Store error relevant here (`ErrInvalidCompactionChainTipHeight`). -/
inductive DBErr where
  | invalidCompactionChainTipHeight
deriving DecidableEq, Repr

/-- The `cc-tip` slot of the LevelDB store: `none` when never written. -/
def TipDB := Option CompactionChainTipInfo

/-- `internalGetCompactionChainTipInfo` (part_000 lines 162-173): a missing
record (`leveldb.ErrNotFound`) yields the zero-valued info (height 0). -/
def internalGetCompactionChainTipInfo (db : TipDB) : CompactionChainTipInfo :=
  db.getD { height := 0, hash := 0 }

/-- `PutCompactionChainTipInfo` (part_000 lines 141-160): reject with
`ErrInvalidCompactionChainTipHeight` unless `info.Height+1 == height` in
`uint64` arithmetic; on success the slot is overwritten, on failure nothing
is written (the error returns before the `Put`). -/
def putCompactionChainTipInfo (db : TipDB) (blockHash height : Nat) :
    Except DBErr TipDB :=
  let info := internalGetCompactionChainTipInfo db
  if (info.height + 1) % Dex.u64Mod ≠ height then
    .error .invalidCompactionChainTipHeight
  else .ok (some { height := height, hash := blockHash })

end DB

namespace CoreTypes

/-- `rlpTimestamp.EncodeRLP` (src/unnamed/part_001 lines 53-55): the wire
value is `uint64(t.UTC().UnixNano())`.  A Go `time.Time` instant is its
(int64) nanosecond count `unixNano`; the cast to `uint64` is reduction mod
`2^64`. -/
def encodeRLPTimestamp (unixNano : Int) : Nat :=
  (unixNano.emod (2 ^ 64 : Int)).toNat

/-- `rlpTimestamp.DecodeRLP` (part_001 lines 57-66): the wire `uint64` is
reinterpreted as `int64(nano)`, then split with Go's truncated division into
`sec := int64(nano) / 1000000000` and `nsec := int64(nano) % 1000000000`. -/
def decodeRLPTimestamp (nano : Nat) : Int × Int :=
  let i := Dex.toInt64 nano
  (Int.tdiv i 1000000000, Int.tmod i 1000000000)

/-- `time.Unix(sec, nsec)` as an instant: its nanosecond count. -/
def timeUnixNano (sec nsec : Int) : Int := sec * 1000000000 + nsec

/-- Modelled from the spec: `Position.Newer` (the consensus-core
`types.Position` comparison, not under `src/`) — a position is newer when its
round is larger, or rounds are equal and its height is larger (positions are
`{ round, chain_id, height }`; within one chain blocks advance by round then
height). -/
def Position.Newer (pos other : Dex.Position) : Bool :=
  other.round < pos.round ∨ (pos.round = other.round ∧ other.height < pos.height)

/-- `BlocksByPosition.Less(i, j) = bs[j].Position.Newer(bs[i].Position)`
(part_001 lines 275-277), as the ordering predicate `le a b` meaning
"a does not come after b": sorting with Go's `sort.Sort` arranges the slice so
that `Less(j, i)` is false whenever `i < j`, i.e. pairwise `le`. -/
def blocksByPositionLe (a b : Dex.CoreBlock) : Prop :=
  ¬ Position.Newer a.position b.position = true

instance : DecidableRel blocksByPositionLe := fun a b =>
  instDecidableNot

/-- Sorting a block slice with the `BlocksByPosition` comparator
(`sort.Sort(BlocksByPosition(bs))`).  Go's introsort is unstable, but any
comparison sort yields a permutation that is pairwise-ordered by
`blocksByPositionLe`; insertion sort is such a sort. -/
def sortBlocksByPosition (bs : List Dex.CoreBlock) : List Dex.CoreBlock :=
  List.insertionSort blocksByPositionLe bs

end CoreTypes

namespace PeerSet

/-- The two label kinds (`notaryset`, `dkgset`). -/
inductive SetKind where
  | notaryset
  | dkgset
deriving DecidableEq, Repr

/-- `peerLabel { set, chainID, round }`.  DKG labels leave `chainID` at its
zero value, exactly as the Go literals `peerLabel{set: dkgset, round: round}`. -/
structure PeerLabel where
  set : SetKind
  chainID : Nat
  round : Nat
deriving DecidableEq, Repr

/-- Group names registered with the p2p server: `notarySetName(cid, round)`
and `dkgSetName(round)` (src/unnamed/part_003 lines 1527-1533). -/
inductive GroupName where
  | notarySetName (chainID round : Nat)
  | dkgSetName (round : Nat)
deriving DecidableEq, Repr

/-- Governance oracle of the peer set: `GetNumChains`, `NotarySet` and
`DKGSet`; `none` models a lookup error (which the Go code logs and skips).
Node sets are public-key lists (Go map keys, hence an arbitrary but fixed
enumeration); `newNode(pk).ID()` is injective, so peers are identified with
their `pk` directly. -/
structure Gov where
  numChains : Nat → Nat
  notarySet : Nat → Nat → Option (List Nat)
  dkgSet : Nat → Option (List Nat)

/-- The mutable state of `peerSet` touched by the topology operations:
the `peer2Labels` / `label2Peers` maps (total functions defaulting to `∅`,
plus their key sets, since Go deletes a key whose set becomes empty), the
p2p server's direct-peer set and group set, and the three round histories. -/
structure PS where
  peer2Labels : Nat → Finset PeerLabel
  peer2LabelsDom : Finset Nat
  label2Peers : PeerLabel → Finset Nat
  label2PeersDom : Finset PeerLabel
  direct : Finset Nat
  groups : Finset GroupName
  history : Finset Nat
  notaryHistory : Finset Nat
  dkgHistory : Finset Nat

/-- A fresh `peerSet`: no labels, no direct peers, no groups, no history. -/
def initPS : PS where
  peer2Labels := fun _ => ∅
  peer2LabelsDom := ∅
  label2Peers := fun _ => ∅
  label2PeersDom := ∅
  direct := ∅
  groups := ∅
  history := ∅
  notaryHistory := ∅
  dkgHistory := ∅

/-- `peerSet.addLabel` (part_003 lines 1610-1621): insert the pair into both
maps, materialising the key sets. -/
def addLabel (ps : PS) (pk : Nat) (label : PeerLabel) : PS :=
  { ps with
    peer2Labels := fun p => if p = pk then insert label (ps.peer2Labels p) else ps.peer2Labels p
    peer2LabelsDom := insert pk ps.peer2LabelsDom
    label2Peers := fun l => if l = label then insert pk (ps.label2Peers l) else ps.label2Peers l
    label2PeersDom := insert label ps.label2PeersDom }

/-- `peerSet.removeLabel` (part_003 lines 1624-1635): delete the pair from
both maps and drop a key whose set became empty. -/
def removeLabel (ps : PS) (pk : Nat) (label : PeerLabel) : PS :=
  let p2l := fun p => if p = pk then (ps.peer2Labels p).erase label else ps.peer2Labels p
  let l2p := fun l => if l = label then (ps.label2Peers l).erase pk else ps.label2Peers l
  { ps with
    peer2Labels := p2l
    peer2LabelsDom := if p2l pk = ∅ then ps.peer2LabelsDom.erase pk else ps.peer2LabelsDom
    label2Peers := l2p
    label2PeersDom := if l2p label = ∅ then ps.label2PeersDom.erase label else ps.label2PeersDom }

/-- `peerSet.addDirectPeer` (part_003 lines 1594-1598): label the peer, then
unconditionally `srvr.AddDirectPeer`. -/
def addDirectPeer (ps : PS) (pk : Nat) (label : PeerLabel) : PS :=
  let ps := addLabel ps pk label
  { ps with direct := insert pk ps.direct }

/-- `peerSet.removeDirectPeer` (part_003 lines 1601-1607): unlabel the peer
and `srvr.RemoveDirectPeer` exactly when its label set became empty. -/
def removeDirectPeer (ps : PS) (pk : Nat) (label : PeerLabel) : PS :=
  if (removeLabel ps pk label).peer2Labels pk = ∅ then
    { removeLabel ps pk label with direct := (removeLabel ps pk label).direct.erase pk }
  else removeLabel ps pk label

/-- The body of `BuildConnection`'s per-chain loop (part_003 lines
1324-1350): wire one notary set, tracking `inOneNotarySet` in the second
component. -/
def buildConnectionStep (g : Gov) (self : Nat) (round : Nat)
    (acc : PS × Bool) (cid : Nat) : PS × Bool :=
  match g.notarySet round cid with
  | none => acc
  | some notaryPKs =>
    let label : PeerLabel := { set := .notaryset, chainID := cid, round := round }
    if self ∉ notaryPKs then
      let s := notaryPKs.foldl (fun s pk => addLabel s pk label) acc.1
      ({ s with groups := insert (.notarySetName cid round) s.groups }, acc.2)
    else
      ((notaryPKs.filter (· ≠ self)).foldl (fun s pk => addDirectPeer s pk label) acc.1, true)

/-- `peerSet.BuildConnection` (part_003 lines 1302-1363): record the round,
wire the DKG set (direct peers when self is a member), then every notary set
(direct peers when self is a member, otherwise labels plus a group), and
finally — when self is in some notary set but not in the DKG set — label the
DKG nodes and register a group towards them.  A failed `DKGSet` lookup leaves
`dkgPKs` nil (here `[]`); a failed `NotarySet` lookup skips that chain. -/
def buildConnection (g : Gov) (self : Nat) (ps : PS) (round : Nat) : PS :=
  let ps := { ps with history := insert round ps.history }
  let dkgPKs := (g.dkgSet round).getD []
  let inDKGSet := self ∈ dkgPKs
  let ps :=
    if inDKGSet then
      (dkgPKs.filter (· ≠ self)).foldl
        (fun s pk => addDirectPeer s pk { set := .dkgset, chainID := 0, round := round }) ps
    else ps
  let built := (List.range (g.numChains round)).foldl (buildConnectionStep g self round) (ps, false)
  if ¬ inDKGSet ∧ built.2 then
    let s := dkgPKs.foldl
      (fun s pk => addLabel s pk { set := .dkgset, chainID := 0, round := round }) built.1
    { s with groups := insert (.dkgSetName round) s.groups }
  else built.1

/-- The body of `forgetConnection`'s per-chain loop (part_003 lines
1393-1421), mirror of `buildConnectionStep`. -/
def forgetConnectionStep (g : Gov) (self : Nat) (round : Nat)
    (acc : PS × Bool) (cid : Nat) : PS × Bool :=
  match g.notarySet round cid with
  | none => acc
  | some notaryPKs =>
    let label : PeerLabel := { set := .notaryset, chainID := cid, round := round }
    if self ∉ notaryPKs then
      let s := notaryPKs.foldl (fun s pk => removeLabel s pk label) acc.1
      ({ s with groups := s.groups.erase (.notarySetName cid round) }, acc.2)
    else
      ((notaryPKs.filter (· ≠ self)).foldl (fun s pk => removeDirectPeer s pk label) acc.1, true)

/-- `peerSet.forgetConnection` (part_003 lines 1378-1434): the exact mirror of
`buildConnection` with `removeDirectPeer` / `removeLabel` / `RemoveGroup`. -/
def forgetConnection (g : Gov) (self : Nat) (ps : PS) (round : Nat) : PS :=
  let dkgPKs := (g.dkgSet round).getD []
  let inDKGSet := self ∈ dkgPKs
  let ps :=
    if inDKGSet then
      (dkgPKs.filter (· ≠ self)).foldl
        (fun s pk => removeDirectPeer s pk { set := .dkgset, chainID := 0, round := round }) ps
    else ps
  let forgot := (List.range (g.numChains round)).foldl (forgetConnectionStep g self round) (ps, false)
  if ¬ inDKGSet ∧ forgot.2 then
    let s := dkgPKs.foldl
      (fun s pk => removeLabel s pk { set := .dkgset, chainID := 0, round := round }) forgot.1
    { s with groups := s.groups.erase (.dkgSetName round) }
  else forgot.1

/-- `peerSet.ForgetConnection` (part_003 lines 1365-1376).  The Go loop is

    for r := range ps.history { if r <= round { ps.forgetConnection(round); delete(ps.history, r) } }

note that the body calls `forgetConnection(round)` — the function argument —
once per recorded `r ≤ round`, not `forgetConnection(r)`.  The history rounds
`≤ round` are removed; `forgetConnection` never reads the history, so the
interleaving with the deletions does not matter. -/
def ForgetConnection (g : Gov) (self : Nat) (ps : PS) (round : Nat) : PS :=
  let rs := ps.history.filter (· ≤ round)
  let ps := { ps with history := ps.history.filter (fun r => ¬ r ≤ round) }
  (List.range rs.card).foldl (fun s _ => forgetConnection g self s round) ps

/-- The body of `BuildNotaryConn`'s per-chain loop (part_003 lines
1447-1474): note that on the `self ∉ set` path only a group is added — no
labels. -/
def buildNotaryConnStep (g : Gov) (self : Nat) (round : Nat) (s : PS) (cid : Nat) : PS :=
  match g.notarySet round cid with
  | none => s
  | some pks =>
    if self ∉ pks then { s with groups := insert (.notarySetName cid round) s.groups }
    else (pks.filter (· ≠ self)).foldl
      (fun s pk => addDirectPeer s pk { set := .notaryset, chainID := cid, round := round }) s

/-- `peerSet.BuildNotaryConn` (part_003 lines 1436-1475): idempotent per
round; for each chain, direct peers when self is in the notary set, else only
a group (no labels on this path). -/
def buildNotaryConn (g : Gov) (self : Nat) (ps : PS) (round : Nat) : PS :=
  if round ∈ ps.notaryHistory then ps
  else
    let ps := { ps with notaryHistory := insert round ps.notaryHistory }
    (List.range (g.numChains round)).foldl (buildNotaryConnStep g self round) ps

/-- The body of `forgetNotaryConn`'s per-chain loop (part_003 lines
1503-1524). -/
def forgetNotaryConnStep (g : Gov) (self : Nat) (round : Nat) (s : PS) (cid : Nat) : PS :=
  match g.notarySet round cid with
  | none => s
  | some pks =>
    if self ∉ pks then { s with groups := s.groups.erase (.notarySetName cid round) }
    else (pks.filter (· ≠ self)).foldl
      (fun s pk => removeDirectPeer s pk { set := .notaryset, chainID := cid, round := round }) s

/-- `peerSet.forgetNotaryConn` (part_003 lines 1502-1525): mirror of one
round of `buildNotaryConn`. -/
def forgetNotaryConn (g : Gov) (self : Nat) (ps : PS) (round : Nat) : PS :=
  (List.range (g.numChains round)).foldl (forgetNotaryConnStep g self round) ps

/-- `peerSet.ForgetNotaryConn` (part_003 lines 1488-1500): forget every
recorded round `r ≤ round` (here iterated in ascending order; the Go map
order is arbitrary and the per-round removals commute). -/
def ForgetNotaryConn (g : Gov) (self : Nat) (ps : PS) (round : Nat) : PS :=
  let rs := ps.notaryHistory.filter (· ≤ round)
  let ps := { ps with notaryHistory := ps.notaryHistory.filter (fun r => ¬ r ≤ round) }
  (rs.sort (· ≤ ·)).foldl (fun s r => forgetNotaryConn g self s r) ps

/-- `peerSet.BuildDKGConn` (part_003 lines 1535-1557): only when self is in
the round's DKG set; a lookup error returns immediately. -/
def buildDKGConn (g : Gov) (self : Nat) (ps : PS) (round : Nat) : PS :=
  match g.dkgSet round with
  | none => ps
  | some s0 =>
    if self ∉ s0 then ps
    else
      let ps := { ps with dkgHistory := insert round ps.dkgHistory }
      (s0.filter (· ≠ self)).foldl
        (fun s pk => addDirectPeer s pk { set := .dkgset, chainID := 0, round := round }) ps

/-- `peerSet.forgetDKGConn` (part_003 lines 1573-1591): mirror of one round
of `buildDKGConn`. -/
def forgetDKGConn (g : Gov) (self : Nat) (ps : PS) (round : Nat) : PS :=
  match g.dkgSet round with
  | none => ps
  | some s0 =>
    if self ∉ s0 then ps
    else
      (s0.filter (· ≠ self)).foldl
        (fun s pk => removeDirectPeer s pk { set := .dkgset, chainID := 0, round := round }) ps

/-- `peerSet.ForgetDKGConn` (part_003 lines 1559-1571): forget every recorded
round `r ≤ round`. -/
def ForgetDKGConn (g : Gov) (self : Nat) (ps : PS) (round : Nat) : PS :=
  let rs := ps.dkgHistory.filter (· ≤ round)
  let ps := { ps with dkgHistory := ps.dkgHistory.filter (fun r => ¬ r ≤ round) }
  (rs.sort (· ≤ ·)).foldl (fun s r => forgetDKGConn g self s r) ps

theorem addLabel_peer2Labels (ps : PS) (pk : Nat) (label : PeerLabel) (p : Nat) :
    (addLabel ps pk label).peer2Labels p =
      if p = pk then insert label (ps.peer2Labels p) else ps.peer2Labels p := rfl

theorem addLabel_label2Peers (ps : PS) (pk : Nat) (label : PeerLabel) (l : PeerLabel) :
    (addLabel ps pk label).label2Peers l =
      if l = label then insert pk (ps.label2Peers l) else ps.label2Peers l := rfl

theorem addLabel_peer2LabelsDom (ps : PS) (pk : Nat) (label : PeerLabel) :
    (addLabel ps pk label).peer2LabelsDom = insert pk ps.peer2LabelsDom := rfl

theorem addLabel_label2PeersDom (ps : PS) (pk : Nat) (label : PeerLabel) :
    (addLabel ps pk label).label2PeersDom = insert label ps.label2PeersDom := rfl

theorem addLabel_direct (ps : PS) (pk : Nat) (label : PeerLabel) :
    (addLabel ps pk label).direct = ps.direct := rfl

theorem removeLabel_peer2Labels (ps : PS) (pk : Nat) (label : PeerLabel) (p : Nat) :
    (removeLabel ps pk label).peer2Labels p =
      if p = pk then (ps.peer2Labels p).erase label else ps.peer2Labels p := rfl

theorem removeLabel_label2Peers (ps : PS) (pk : Nat) (label : PeerLabel) (l : PeerLabel) :
    (removeLabel ps pk label).label2Peers l =
      if l = label then (ps.label2Peers l).erase pk else ps.label2Peers l := rfl

theorem removeLabel_peer2LabelsDom (ps : PS) (pk : Nat) (label : PeerLabel) :
    (removeLabel ps pk label).peer2LabelsDom =
      if (ps.peer2Labels pk).erase label = ∅ then ps.peer2LabelsDom.erase pk
      else ps.peer2LabelsDom := by
  unfold removeLabel
  simp

theorem removeLabel_label2PeersDom (ps : PS) (pk : Nat) (label : PeerLabel) :
    (removeLabel ps pk label).label2PeersDom =
      if (ps.label2Peers label).erase pk = ∅ then ps.label2PeersDom.erase label
      else ps.label2PeersDom := by
  unfold removeLabel
  simp

theorem removeLabel_direct (ps : PS) (pk : Nat) (label : PeerLabel) :
    (removeLabel ps pk label).direct = ps.direct := rfl

theorem addDirectPeer_peer2Labels (ps : PS) (pk : Nat) (label : PeerLabel) (p : Nat) :
    (addDirectPeer ps pk label).peer2Labels p =
      if p = pk then insert label (ps.peer2Labels p) else ps.peer2Labels p := rfl

theorem addDirectPeer_direct (ps : PS) (pk : Nat) (label : PeerLabel) :
    (addDirectPeer ps pk label).direct = insert pk ps.direct := rfl

theorem removeDirectPeer_peer2Labels (ps : PS) (pk : Nat) (label : PeerLabel) (p : Nat) :
    (removeDirectPeer ps pk label).peer2Labels p =
      if p = pk then (ps.peer2Labels p).erase label else ps.peer2Labels p := by
  unfold removeDirectPeer
  by_cases h : (removeLabel ps pk label).peer2Labels pk = ∅
  · rw [if_pos h]
    exact removeLabel_peer2Labels ps pk label p
  · rw [if_neg h]
    exact removeLabel_peer2Labels ps pk label p

theorem removeDirectPeer_direct (ps : PS) (pk : Nat) (label : PeerLabel) :
    (removeDirectPeer ps pk label).direct =
      if (ps.peer2Labels pk).erase label = ∅ then ps.direct.erase pk
      else ps.direct := by
  unfold removeDirectPeer
  have hcond : (removeLabel ps pk label).peer2Labels pk =
      (ps.peer2Labels pk).erase label := by
    rw [removeLabel_peer2Labels, if_pos rfl]
  by_cases h : (ps.peer2Labels pk).erase label = ∅
  · rw [if_pos (hcond.trans h), if_pos h]
    rfl
  · rw [if_neg fun hc => h (hcond.symm.trans hc), if_neg h]
    rfl

/-- One topology operation, as named in the public `peerSet` interface. -/
inductive TopoOp where
  | buildConn (round : Nat)
  | forgetConn (round : Nat)
  | buildNotary (round : Nat)
  | forgetNotary (round : Nat)
  | buildDKG (round : Nat)
  | forgetDKG (round : Nat)
deriving DecidableEq, Repr

/-- Apply one topology operation. -/
def applyTopoOp (g : Gov) (self : Nat) (ps : PS) : TopoOp → PS
  | .buildConn r => buildConnection g self ps r
  | .forgetConn r => ForgetConnection g self ps r
  | .buildNotary r => buildNotaryConn g self ps r
  | .forgetNotary r => ForgetNotaryConn g self ps r
  | .buildDKG r => buildDKGConn g self ps r
  | .forgetDKG r => ForgetDKGConn g self ps r

/-- Apply a sequence of topology operations (they all serialise on the one
`peerSet` mutex). -/
def applyTopoOps (g : Gov) (self : Nat) (ops : List TopoOp) (ps : PS) : PS :=
  ops.foldl (applyTopoOp g self) ps

/-- One call to `addLabel` or `removeLabel`. -/
inductive LabelOp where
  | add (pk : Nat) (label : PeerLabel)
  | remove (pk : Nat) (label : PeerLabel)
deriving DecidableEq, Repr

/-- Apply one label operation. -/
def applyLabelOp (ps : PS) : LabelOp → PS
  | .add pk label => addLabel ps pk label
  | .remove pk label => removeLabel ps pk label

/-- Apply a sequence of label operations. -/
def applyLabelOps (ops : List LabelOp) (ps : PS) : PS :=
  ops.foldl applyLabelOp ps

/-- One call to `addDirectPeer` or `removeDirectPeer` (the labelled
direct-peer path, taken whenever self belongs to the set being wired). -/
inductive DirectOp where
  | add (pk : Nat) (label : PeerLabel)
  | remove (pk : Nat) (label : PeerLabel)
deriving DecidableEq, Repr

/-- Apply one direct-peer operation. -/
def applyDirectOp (ps : PS) : DirectOp → PS
  | .add pk label => addDirectPeer ps pk label
  | .remove pk label => removeDirectPeer ps pk label

/-- Apply a sequence of direct-peer operations. -/
def applyDirectOps (ops : List DirectOp) (ps : PS) : PS :=
  ops.foldl applyDirectOp ps

end PeerSet

section ClaimC7

/-- Claim C7: `PutCompactionChainTipInfo(hash, height)` succeeds — storing
exactly `{hash, height}` — if and only if `height` equals the stored tip
height plus one (in the store's `uint64` arithmetic, a missing record
counting as height 0); on any other height it fails with
`InvalidCompactionChainTipHeight`, and since the error returns before the
`Put`, the stored tip is unchanged. -/
theorem putCompactionChainTipInfo_succeeds_iff (db : DB.TipDB) (blockHash height : Nat) :
    (DB.putCompactionChainTipInfo db blockHash height =
        .ok (some { height := height, hash := blockHash }) ↔
      height = ((DB.internalGetCompactionChainTipInfo db).height + 1) % Dex.u64Mod) ∧
    (height ≠ ((DB.internalGetCompactionChainTipInfo db).height + 1) % Dex.u64Mod →
      DB.putCompactionChainTipInfo db blockHash height =
        .error .invalidCompactionChainTipHeight) := by
  by_cases hc : ((DB.internalGetCompactionChainTipInfo db).height + 1) % Dex.u64Mod = height
  · simp [DB.putCompactionChainTipInfo, hc]
  · have hc' : height ≠ ((DB.internalGetCompactionChainTipInfo db).height + 1) % Dex.u64Mod :=
      fun h => hc h.symm
    simp [DB.putCompactionChainTipInfo, hc, hc']

/-- Witness for C7 at a concrete store: with tip height 10, putting height 11
succeeds (tip advances to `{height 11, hash 7}`) and putting height 12 fails
with `InvalidCompactionChainTipHeight`. -/
theorem putCompactionChainTipInfo_witness :
    DB.putCompactionChainTipInfo (some { height := 10, hash := 5 }) 7 11 =
        .ok (some { height := 11, hash := 7 }) ∧
    DB.putCompactionChainTipInfo (some { height := 10, hash := 5 }) 7 12 =
        .error .invalidCompactionChainTipHeight :=
  ⟨(putCompactionChainTipInfo_succeeds_iff (some { height := 10, hash := 5 }) 7 11).1.mpr
      (by decide),
    (putCompactionChainTipInfo_succeeds_iff (some { height := 10, hash := 5 }) 7 12).2
      (by decide)⟩

end ClaimC7

section ClaimC8

/-- Claim C8 counterexample: the instant `2^63` nanoseconds after the epoch
is representable as `u64` nanoseconds, its wire encoding is `2^63`, but
decoding that wire value yields the instant `-2^63` (the Go decoder goes
through `int64(nano)`), not the original instant: the round trip fails. -/
theorem rlpTimestamp_u64_not_roundtrip :
    CoreTypes.encodeRLPTimestamp (CoreTypes.timeUnixNano
        (CoreTypes.decodeRLPTimestamp (2 ^ 63)).1 (CoreTypes.decodeRLPTimestamp (2 ^ 63)).2) =
      2 ^ 63 ∧
    CoreTypes.timeUnixNano (CoreTypes.decodeRLPTimestamp (2 ^ 63)).1
        (CoreTypes.decodeRLPTimestamp (2 ^ 63)).2 = -(2 ^ 63 : Int) ∧
    CoreTypes.timeUnixNano (CoreTypes.decodeRLPTimestamp (2 ^ 63)).1
        (CoreTypes.decodeRLPTimestamp (2 ^ 63)).2 ≠ ((2 ^ 63 : Nat) : Int) := by
  refine ⟨by decide, by decide, by decide⟩

/-- Claim C8 (amended): for every time value whose nanosecond count fits in a
*non-negative `int64`* (`n < 2^63`), the `rlpTimestamp` codec round-trips:
the encoding is exactly the `u64` UTC nanosecond count `n`, and decoding
restores the second and nanosecond components of the same instant
(`sec * 10^9 + nsec = n`).  `Block.EncodeRLP` / `Block.DecodeRLP` and the
`FinalizationResult` codec route their `Timestamp` fields through exactly
this adapter (part_001 lines 159-198 and 96-118). -/
theorem rlpTimestamp_roundtrip (n : Nat) (h : n < 2 ^ 63) :
    CoreTypes.encodeRLPTimestamp (n : Int) = n ∧
    CoreTypes.timeUnixNano (CoreTypes.decodeRLPTimestamp n).1
        (CoreTypes.decodeRLPTimestamp n).2 = (n : Int) := by
  have h64 : (n : Int) < 2 ^ 64 := by
    have : n < 2 ^ 64 := h.trans (by norm_num)
    exact_mod_cast this
  constructor
  · unfold CoreTypes.encodeRLPTimestamp
    rw [show (n : Int).emod (2 ^ 64) = (n : Int) from
        Int.emod_eq_of_lt (Int.natCast_nonneg n) h64]
    simp
  · simp only [CoreTypes.decodeRLPTimestamp, CoreTypes.timeUnixNano, Dex.toInt64]
    rw [if_pos h]
    rw [add_comm]
    exact Int.tmod_add_tdiv' (n : Int) 1000000000

/-- Witness for the amended C8 at the concrete nanosecond count
1234567890123456789 (a 2009 timestamp). -/
theorem rlpTimestamp_roundtrip_witness :
    CoreTypes.encodeRLPTimestamp (1234567890123456789 : Int) = 1234567890123456789 ∧
    CoreTypes.timeUnixNano (CoreTypes.decodeRLPTimestamp 1234567890123456789).1
        (CoreTypes.decodeRLPTimestamp 1234567890123456789).2 = (1234567890123456789 : Int) :=
  rlpTimestamp_roundtrip 1234567890123456789 (by norm_num)

end ClaimC8

section ClaimC9

/-- A block at position height 1 (and otherwise trivial fields). -/
def blockAtHeight1 : Dex.CoreBlock :=
  { position := { round := 0, chainID := 0, height := 1 }, payload := [],
    witnessHeight := 0, witnessData := [] }

/-- A block at position height 0 (and otherwise trivial fields). -/
def blockAtHeight0 : Dex.CoreBlock :=
  { position := { round := 0, chainID := 0, height := 0 }, payload := [],
    witnessHeight := 0, witnessData := [] }

/-- Claim C9 counterexample: sorting `[height-1 block, height-0 block]` with
the `BlocksByPosition` comparator puts the *older* block first — the sorted
result is ascending by position, so it is false that for `i < j` block `i`'s
position is newer than block `j`'s (here block 0 is strictly older). -/
theorem blocksByPosition_not_descending :
    CoreTypes.sortBlocksByPosition [blockAtHeight1, blockAtHeight0] =
        [blockAtHeight0, blockAtHeight1] ∧
    CoreTypes.Position.Newer blockAtHeight0.position blockAtHeight1.position = false := by
  constructor
  · rfl
  · rfl

/-- Claim C9 (amended): sorting a slice of blocks with the `BlocksByPosition`
comparator orders the blocks *ascending* by position (oldest position first):
for every pair of indices `i < j` in the sorted result, block `i`'s position
is not newer than block `j`'s — exactly the guarantee `sort.Sort` gives for
this `Less`, which makes the derived heap a min-heap by position. -/
theorem blocksByPosition_sort_ascending (bs : List Dex.CoreBlock) :
    (CoreTypes.sortBlocksByPosition bs).Sorted CoreTypes.blocksByPositionLe := by
  haveI : IsTotal Dex.CoreBlock CoreTypes.blocksByPositionLe := by
    constructor
    intro a b
    unfold CoreTypes.blocksByPositionLe CoreTypes.Position.Newer
    simp only [decide_eq_true_eq]
    omega
  haveI : IsTrans Dex.CoreBlock CoreTypes.blocksByPositionLe := by
    constructor
    intro a b c
    unfold CoreTypes.blocksByPositionLe CoreTypes.Position.Newer
    simp only [decide_eq_true_eq]
    omega
  exact List.sorted_insertionSort CoreTypes.blocksByPositionLe bs

end ClaimC9

section ClaimC1

/-- A concrete environment for the `PreparePayload` claims: one chain, an
empty pool, a committed state at root 0, current block number 10 with hash 99
and gas limit 10^6; chain 0's last confirmed height is 3. -/
def wBase : Dex.World where
  numChains := fun _ => 1
  govBlockGasLimit := fun _ => 1000000
  deliveredRound := 0
  chainLastConfirmedHeight := fun _ => some 3
  chainRoot := fun _ => some 0
  stateAt := fun _ => some { balance := fun _ => 1000000000, nonce := fun _ => 5 }
  currentNumber := 10
  currentGasLimit := 1000000
  blockByNumber := fun _ => some { hash := 99, root := 0 }
  costInConfirmedBlocks := fun _ _ => none
  lastNonceInConfirmedBlocks := fun _ _ => none
  pending := some []
  decodeHashWitness := fun _ => some 99
  decodeTxs := fun _ => some []
  encodeTxs := fun _ => []
  intrinsicGas := fun _ _ => some 21000

/-- Claim C1 counterexample: at position `{round 0, chain 0, height 6}` with
last confirmed height 3, the inner worker fails with
`previous block not exists`; when the worker finishes before the 150 ms
deadline (`workerDone = true`) the outer `PreparePayload` returns that error
to the consensus caller — a non-nil error, contradicting the claim. -/
theorem preparePayload_surfaces_error :
    (Dex.preparePayloadOuter wBase { round := 0, chainID := 0, height := 6 }
        true false 0).err = some .prevBlockNotExists := by
  rfl

/-- Claim C1 (amended): `PreparePayload` surfaces an error exactly when the
inner worker finishes before the hard deadline with a failure (height gap,
state-load failure, pool failure or intrinsic-gas failure); if the hard
deadline fires first the caller gets empty payload bytes and a nil error, and
an error-free worker hands its (possibly empty) payload back with a nil
error. -/
theorem preparePayloadOuter_spec (w : Dex.World) (position : Dex.Position)
    (startCancelled : Bool) (fuel : Nat) :
    (Dex.preparePayloadOuter w position false startCancelled fuel =
      { payload := [], err := none }) ∧
    (∀ e, Dex.preparePayloadInner w position startCancelled fuel = .error e →
      Dex.preparePayloadOuter w position true startCancelled fuel =
        { payload := [], err := some e }) ∧
    (∀ p, Dex.preparePayloadInner w position startCancelled fuel = .ok p →
      Dex.preparePayloadOuter w position true startCancelled fuel =
        { payload := p, err := none }) := by
  refine ⟨rfl, ?_, ?_⟩ <;> intro x hx <;> simp [Dex.preparePayloadOuter, hx]

/-- Witness for the amended C1: the concrete failing input again — the worker
finishes with `prevBlockNotExists`, so the outer call returns empty payload
and that error; and with the deadline fired first it returns empty payload
and no error. -/
theorem preparePayloadOuter_spec_witness :
    Dex.preparePayloadOuter wBase { round := 0, chainID := 0, height := 6 } true false 0 =
        { payload := [], err := some .prevBlockNotExists } ∧
    Dex.preparePayloadOuter wBase { round := 0, chainID := 0, height := 6 } false false 0 =
        { payload := [], err := none } :=
  ⟨(preparePayloadOuter_spec wBase { round := 0, chainID := 0, height := 6 } false 0).2.1
      .prevBlockNotExists rfl,
    (preparePayloadOuter_spec wBase { round := 0, chainID := 0, height := 6 } false 0).1⟩

end ClaimC1

section ClaimC2

/-- Claim C2: at a position with round `r > 0` where the governance chain
count changes between `r-1` and `r` and the most recently delivered round is
`< r`: `PreparePayload` returns empty payload bytes with no error under every
schedule, and `VerifyBlock` — its witness checks (decode, height, block
lookup, hash match, state) and chain-height check having passed — returns OK
if the block's payload is empty and Invalid otherwise. -/
theorem roundReshapeGate (w : Dex.World) (b : Dex.CoreBlock)
    (witnessBlockHash : Nat) (wb : Dex.ChainBlock)
    (hr : 0 < b.position.round)
    (hch : w.numChains (b.position.round - 1) ≠ w.numChains b.position.round)
    (hdel : w.deliveredRound < b.position.round)
    (hdec : w.decodeHashWitness b.witnessData = some witnessBlockHash)
    (hcur : ¬ w.currentNumber < b.witnessHeight)
    (hwb : w.blockByNumber b.witnessHeight = some wb)
    (hhash : wb.hash = witnessBlockHash)
    (hstw : (w.stateAt wb.root).isSome)
    (hheight : b.position.height = 0 ∨
      w.chainLastConfirmedHeight b.position.chainID = some (b.position.height - 1)) :
    (∀ workerDone startCancelled fuel,
      Dex.preparePayloadOuter w b.position workerDone startCancelled fuel =
        { payload := [], err := none }) ∧
    Dex.verifyBlock w b =
      (if b.payload = [] then .verifyOK else .verifyInvalidBlock) := by
  constructor
  · intro workerDone startCancelled fuel
    have hinner : Dex.preparePayloadInner w b.position startCancelled fuel = .ok [] := by
      unfold Dex.preparePayloadInner
      cases startCancelled with
      | true => rfl
      | false =>
        rw [if_neg (by simp)]
        rw [if_pos ⟨hr, hch, hdel⟩]
    cases workerDone with
    | true => simpa [Dex.preparePayloadOuter] using hinner ▸ rfl
    | false => rfl
  · unfold Dex.verifyBlock
    rw [hdec]
    dsimp only
    rw [if_neg hcur, hwb]
    dsimp only
    rw [if_neg (not_not_intro hhash),
      if_neg (by
        intro hN
        rw [Option.isNone_iff_eq_none] at hN
        rw [hN] at hstw
        simp at hstw),
      if_neg (by
        rcases hheight with h0 | hprev
        · exact fun hc => hc.1 h0
        · exact fun hc => hc.2 hprev),
      if_pos ⟨hr, hch, hdel⟩]
    cases b.payload with
    | nil => simp
    | cons x xs => simp

/-- A round-reshape environment: `num_chains(0) = 4`, `num_chains(1) = 8`,
delivered round 0 (spec scenario E). -/
def wReshape : Dex.World :=
  { wBase with numChains := fun r => if r = 0 then 4 else 8 }

/-- A round-1 block with a non-empty payload and a passing witness against
`wReshape`. -/
def bReshape : Dex.CoreBlock :=
  { position := { round := 1, chainID := 0, height := 0 }, payload := [1, 2],
    witnessHeight := 10, witnessData := [] }

/-- Witness for C2: in `wReshape`, `PreparePayload` at the round-1 position
returns empty bytes and no error, and `VerifyBlock` rejects the non-empty
payload `[1, 2]` as Invalid but accepts the same block with empty payload. -/
theorem roundReshapeGate_witness :
    Dex.preparePayloadOuter wReshape bReshape.position true false 3 =
        { payload := [], err := none } ∧
    Dex.verifyBlock wReshape bReshape = .verifyInvalidBlock ∧
    Dex.verifyBlock wReshape { bReshape with payload := [] } = .verifyOK := by
  have h := roundReshapeGate wReshape bReshape 99 { hash := 99, root := 0 }
    (by decide) (by decide) (by decide) rfl (by decide) rfl rfl (by decide) (Or.inl rfl)
  have h2 := roundReshapeGate wReshape { bReshape with payload := [] } 99
    { hash := 99, root := 0 }
    (by decide) (by decide) (by decide) rfl (by decide) rfl rfl (by decide) (Or.inl rfl)
  exact ⟨h.1 true false 3, by simpa using h.2, by simpa using h2.2⟩

end ClaimC2

section ClaimC5

/-- Governance for the C5 failing input: one chain per round; self (pk 0) is
in every notary set; the round-0 notary set is `{0, 1}`, every later one is
`{0, 2}`; the DKG set is empty. -/
def govC5 : PeerSet.Gov where
  numChains := fun _ => 1
  notarySet := fun r _ => some (if r = 0 then [0, 1] else [0, 2])
  dkgSet := fun _ => some []

/-- The state after `BuildConnection(0); BuildConnection(1);
ForgetConnection(1)` with governance `govC5` and self pk 0. -/
def psC5 : PeerSet.PS :=
  PeerSet.ForgetConnection govC5 0
    (PeerSet.buildConnection govC5 0 (PeerSet.buildConnection govC5 0 PeerSet.initPS 0) 1) 1

/-- Claim C5 failing input evaluated: `ForgetConnection(1)` after building
rounds 0 and 1 deletes both rounds from the history, but — because the Go
loop body calls `forgetConnection(round)` with the *argument*, not the
iterated recorded round `r` — it forgets round 1 twice and round 0 never:
peer 1 still carries its round-0 notary label, is still a direct peer, and
the round-0 DKG fallback group is still registered.  Inverting
`BuildConnection(0)` (what the claim — and the parallel
`ForgetNotaryConn` / `ForgetDKGConn` loops, which do pass `r` — prescribe)
would have removed them. -/
theorem forgetConnection_round_bug :
    psC5.history = ∅ ∧
    psC5.peer2Labels 1 = {{ set := .notaryset, chainID := 0, round := 0 }} ∧
    1 ∈ psC5.direct ∧
    PeerSet.GroupName.dkgSetName 0 ∈ psC5.groups ∧
    (PeerSet.forgetConnection govC5 0
        (PeerSet.buildConnection govC5 0 PeerSet.initPS 0) 0).peer2Labels 1 = ∅ ∧
    1 ∉ (PeerSet.forgetConnection govC5 0
        (PeerSet.buildConnection govC5 0 PeerSet.initPS 0) 0).direct := by
  refine ⟨by decide, by decide, by decide, by decide, by decide, by decide⟩

end ClaimC5

section ClaimC6

/-- Governance for the C6 counterexample: one chain whose round-0 notary set
is `{1, 2}` — self (pk 0) is not a member — and an empty DKG set. -/
def govC6 : PeerSet.Gov where
  numChains := fun _ => 1
  notarySet := fun _ _ => some [1, 2]
  dkgSet := fun _ => some []

/-- Claim C6 counterexample: after the single operation `BuildConnection(0)`
under `govC6`, peer 1 carries a (notary) label — `peer2Labels[1]` is
non-empty — yet it was never added as a direct peer: when self is outside a
notary set, `BuildConnection` labels the set's members via `addLabel` and
registers a group, without `addDirectPeer`.  The claimed equivalence fails. -/
theorem buildConnection_labels_without_direct :
    (PeerSet.buildConnection govC6 0 PeerSet.initPS 0).peer2Labels 1 ≠ ∅ ∧
    1 ∉ (PeerSet.buildConnection govC6 0 PeerSet.initPS 0).direct := by
  refine ⟨by decide, by decide⟩

/-- Claim C6 (amended): along the *direct-peer path* the equivalence does
hold — after any sequence of `addDirectPeer` / `removeDirectPeer` calls
(the only label operations used when self belongs to the sets being wired,
e.g. any sequence of `BuildDKGConn` / `ForgetDKGConn`), a peer `p` is a
direct peer if and only if `peer2Labels[p]` is non-empty; in particular
`removeDirectPeer` removes the direct peer exactly when it strips `p`'s last
label.  The group-fallback path (`addLabel` without `AddDirectPeer`, taken
when self is outside a set) breaks the equivalence, as the counterexample
shows. -/
theorem directOps_direct_iff_labelled (ops : List PeerSet.DirectOp) (p : Nat) :
    p ∈ (PeerSet.applyDirectOps ops PeerSet.initPS).direct ↔
      (PeerSet.applyDirectOps ops PeerSet.initPS).peer2Labels p ≠ ∅ := by
  suffices h : ∀ (s : PeerSet.PS),
      (∀ q, q ∈ s.direct ↔ s.peer2Labels q ≠ ∅) →
      ∀ q, q ∈ (PeerSet.applyDirectOps ops s).direct ↔
        (PeerSet.applyDirectOps ops s).peer2Labels q ≠ ∅ by
    exact h PeerSet.initPS (by intro q; simp [PeerSet.initPS]) p
  induction ops with
  | nil => intro s hs q; exact hs q
  | cons op rest ih =>
    intro s hs q
    refine ih (PeerSet.applyDirectOp s op) ?_ q
    intro r
    cases op with
    | add pk label =>
      by_cases hr : r = pk
      · subst hr
        simp [PeerSet.applyDirectOp, PeerSet.addDirectPeer, PeerSet.addLabel]
      · simp only [PeerSet.applyDirectOp, PeerSet.addDirectPeer, PeerSet.addLabel,
          Finset.mem_insert, if_neg hr]
        rw [hs r]
        simp [hr]
    | remove pk label =>
      simp only [PeerSet.applyDirectOp]
      rw [PeerSet.removeDirectPeer_direct, PeerSet.removeDirectPeer_peer2Labels]
      by_cases hE : (s.peer2Labels pk).erase label = ∅ <;> by_cases hr : r = pk
      · subst hr
        rw [if_pos hE, if_pos rfl, hE]
        simp
      · rw [if_pos hE, if_neg hr]
        rw [Finset.mem_erase]
        constructor
        · intro hm; exact (hs r).mp hm.2
        · intro hl; exact ⟨hr, (hs r).mpr hl⟩
      · subst hr
        rw [if_neg hE, if_pos rfl]
        constructor
        · intro _; exact hE
        · intro _
          refine (hs r).mpr fun h0 => hE ?_
          rw [h0]
          exact Finset.erase_empty label
      · rw [if_neg hE, if_neg hr]
        exact hs r

end ClaimC6

namespace PeerSet

/-- The label-map invariant of claim C10: `peer2Labels` and `label2Peers` are
exact inverses, and neither map retains a key bound to an empty set. -/
def mapsInv (s : PS) : Prop :=
  (∀ p l, l ∈ s.peer2Labels p ↔ p ∈ s.label2Peers l) ∧
  (∀ p ∈ s.peer2LabelsDom, s.peer2Labels p ≠ ∅) ∧
  (∀ l ∈ s.label2PeersDom, s.label2Peers l ≠ ∅)

theorem mapsInv_initPS : mapsInv initPS :=
  ⟨fun p l => by simp [initPS], fun p hp => by simp [initPS] at hp,
    fun l hl => by simp [initPS] at hl⟩

theorem mapsInv_update_groups (s : PS) (x : Finset GroupName) (h : mapsInv s) :
    mapsInv { s with groups := x } := h

theorem mapsInv_update_history (s : PS) (x : Finset Nat) (h : mapsInv s) :
    mapsInv { s with history := x } := h

theorem mapsInv_update_notaryHistory (s : PS) (x : Finset Nat) (h : mapsInv s) :
    mapsInv { s with notaryHistory := x } := h

theorem mapsInv_update_dkgHistory (s : PS) (x : Finset Nat) (h : mapsInv s) :
    mapsInv { s with dkgHistory := x } := h

theorem mapsInv_addLabel (ps : PS) (pk : Nat) (label : PeerLabel)
    (h : mapsInv ps) : mapsInv (addLabel ps pk label) := by
  obtain ⟨h1, h2, h3⟩ := h
  refine ⟨?_, ?_, ?_⟩
  · intro p l
    rw [addLabel_peer2Labels, addLabel_label2Peers]
    by_cases hp : p = pk <;> by_cases hl : l = label
    · subst hp; subst hl; simp
    · subst hp
      rw [if_pos rfl, if_neg hl, Finset.mem_insert]
      constructor
      · rintro (he | hm)
        · exact absurd he hl
        · exact (h1 _ _).mp hm
      · intro hm
        exact Or.inr ((h1 _ _).mpr hm)
    · subst hl
      rw [if_neg hp, if_pos rfl, Finset.mem_insert]
      constructor
      · intro hm
        exact Or.inr ((h1 _ _).mp hm)
      · rintro (he | hm)
        · exact absurd he hp
        · exact (h1 _ _).mpr hm
    · rw [if_neg hp, if_neg hl]
      exact h1 p l
  · intro p hp
    rw [addLabel_peer2LabelsDom] at hp
    rw [addLabel_peer2Labels]
    by_cases hpk : p = pk
    · rw [if_pos hpk]
      exact Finset.insert_ne_empty _ _
    · rw [if_neg hpk]
      refine h2 p ?_
      rcases Finset.mem_insert.mp hp with he | hm
      · exact absurd he hpk
      · exact hm
  · intro l hl
    rw [addLabel_label2PeersDom] at hl
    rw [addLabel_label2Peers]
    by_cases hll : l = label
    · rw [if_pos hll]
      exact Finset.insert_ne_empty _ _
    · rw [if_neg hll]
      refine h3 l ?_
      rcases Finset.mem_insert.mp hl with he | hm
      · exact absurd he hll
      · exact hm

theorem mapsInv_removeLabel (ps : PS) (pk : Nat) (label : PeerLabel)
    (h : mapsInv ps) : mapsInv (removeLabel ps pk label) := by
  obtain ⟨h1, h2, h3⟩ := h
  refine ⟨?_, ?_, ?_⟩
  · intro p l
    rw [removeLabel_peer2Labels, removeLabel_label2Peers]
    by_cases hp : p = pk <;> by_cases hl : l = label
    · subst hp; subst hl
      rw [if_pos rfl, if_pos rfl]
      simp
    · subst hp
      rw [if_pos rfl, if_neg hl, Finset.mem_erase]
      constructor
      · intro hm
        exact (h1 _ _).mp hm.2
      · intro hm
        exact ⟨hl, (h1 _ _).mpr hm⟩
    · subst hl
      rw [if_neg hp, if_pos rfl, Finset.mem_erase]
      constructor
      · intro hm
        exact ⟨hp, (h1 _ _).mp hm⟩
      · intro hm
        exact (h1 _ _).mpr hm.2
    · rw [if_neg hp, if_neg hl]
      exact h1 p l
  · intro p hp
    rw [removeLabel_peer2LabelsDom] at hp
    rw [removeLabel_peer2Labels]
    by_cases hpk : p = pk
    · subst hpk
      rw [if_pos rfl]
      by_cases hE : (ps.peer2Labels p).erase label = ∅
      · rw [if_pos hE] at hp
        exact absurd hp (Finset.not_mem_erase p _)
      · exact hE
    · rw [if_neg hpk]
      refine h2 p ?_
      by_cases hE : (ps.peer2Labels pk).erase label = ∅
      · rw [if_pos hE] at hp
        exact Finset.mem_of_mem_erase hp
      · rw [if_neg hE] at hp
        exact hp
  · intro l hl
    rw [removeLabel_label2PeersDom] at hl
    rw [removeLabel_label2Peers]
    by_cases hll : l = label
    · subst hll
      rw [if_pos rfl]
      by_cases hE : (ps.label2Peers l).erase pk = ∅
      · rw [if_pos hE] at hl
        exact absurd hl (Finset.not_mem_erase l _)
      · exact hE
    · rw [if_neg hll]
      refine h3 l ?_
      by_cases hE : (ps.label2Peers label).erase pk = ∅
      · rw [if_pos hE] at hl
        exact Finset.mem_of_mem_erase hl
      · rw [if_neg hE] at hl
        exact hl

theorem mapsInv_addDirectPeer (ps : PS) (pk : Nat) (label : PeerLabel)
    (h : mapsInv ps) : mapsInv (addDirectPeer ps pk label) :=
  mapsInv_addLabel ps pk label h

theorem mapsInv_removeDirectPeer (ps : PS) (pk : Nat) (label : PeerLabel)
    (h : mapsInv ps) : mapsInv (removeDirectPeer ps pk label) := by
  unfold removeDirectPeer
  split
  · exact mapsInv_removeLabel ps pk label h
  · exact mapsInv_removeLabel ps pk label h

theorem mapsInv_foldl {α : Type} (f : PS → α → PS)
    (hf : ∀ s a, mapsInv s → mapsInv (f s a)) :
    ∀ (l : List α) (s : PS), mapsInv s → mapsInv (l.foldl f s)
  | [], _, h => h
  | a :: l, s, h => mapsInv_foldl f hf l (f s a) (hf s a h)

theorem mapsInv_foldl_fst {α β : Type} (f : PS × β → α → PS × β)
    (hf : ∀ acc a, mapsInv acc.1 → mapsInv (f acc a).1) :
    ∀ (l : List α) (acc : PS × β), mapsInv acc.1 → mapsInv (l.foldl f acc).1
  | [], _, h => h
  | a :: l, acc, h => mapsInv_foldl_fst f hf l (f acc a) (hf acc a h)

theorem mapsInv_buildConnectionStep (g : Gov) (self round : Nat) :
    ∀ (acc : PS × Bool) (cid : Nat), mapsInv acc.1 →
      mapsInv (buildConnectionStep g self round acc cid).1 := by
  intro acc cid h
  simp only [buildConnectionStep]
  cases g.notarySet round cid with
  | none => exact h
  | some pks =>
    dsimp only
    split
    · exact mapsInv_update_groups _ _
        (mapsInv_foldl _ (fun s a hs => mapsInv_addLabel s a _ hs) pks acc.1 h)
    · exact mapsInv_foldl _ (fun s a hs => mapsInv_addDirectPeer s a _ hs) _ acc.1 h

theorem mapsInv_forgetConnectionStep (g : Gov) (self round : Nat) :
    ∀ (acc : PS × Bool) (cid : Nat), mapsInv acc.1 →
      mapsInv (forgetConnectionStep g self round acc cid).1 := by
  intro acc cid h
  simp only [forgetConnectionStep]
  cases g.notarySet round cid with
  | none => exact h
  | some pks =>
    dsimp only
    split
    · exact mapsInv_update_groups _ _
        (mapsInv_foldl _ (fun s a hs => mapsInv_removeLabel s a _ hs) pks acc.1 h)
    · exact mapsInv_foldl _ (fun s a hs => mapsInv_removeDirectPeer s a _ hs) _ acc.1 h

theorem mapsInv_buildConnection (g : Gov) (self : Nat) (ps : PS) (round : Nat)
    (h : mapsInv ps) : mapsInv (buildConnection g self ps round) := by
  simp only [buildConnection]
  have hbase : mapsInv { ps with history := insert round ps.history } :=
    mapsInv_update_history ps _ h
  by_cases hdkg : self ∈ (g.dkgSet round).getD []
  · rw [if_pos hdkg, if_neg (fun hc => hc.1 hdkg)]
    exact mapsInv_foldl_fst _ (mapsInv_buildConnectionStep g self round) _ _
      (mapsInv_foldl _ (fun s a hs => mapsInv_addDirectPeer s a _ hs) _ _ hbase)
  · rw [if_neg hdkg]
    split
    · exact mapsInv_update_groups _ _
        (mapsInv_foldl _ (fun s a hs => mapsInv_addLabel s a _ hs) _ _
          (mapsInv_foldl_fst _ (mapsInv_buildConnectionStep g self round) _ _ hbase))
    · exact mapsInv_foldl_fst _ (mapsInv_buildConnectionStep g self round) _ _ hbase

theorem mapsInv_forgetConnection (g : Gov) (self : Nat) (ps : PS) (round : Nat)
    (h : mapsInv ps) : mapsInv (forgetConnection g self ps round) := by
  simp only [forgetConnection]
  by_cases hdkg : self ∈ (g.dkgSet round).getD []
  · rw [if_pos hdkg, if_neg (fun hc => hc.1 hdkg)]
    exact mapsInv_foldl_fst _ (mapsInv_forgetConnectionStep g self round) _ _
      (mapsInv_foldl _ (fun s a hs => mapsInv_removeDirectPeer s a _ hs) _ _ h)
  · rw [if_neg hdkg]
    split
    · exact mapsInv_update_groups _ _
        (mapsInv_foldl _ (fun s a hs => mapsInv_removeLabel s a _ hs) _ _
          (mapsInv_foldl_fst _ (mapsInv_forgetConnectionStep g self round) _ _ h))
    · exact mapsInv_foldl_fst _ (mapsInv_forgetConnectionStep g self round) _ _ h

theorem mapsInv_ForgetConnection (g : Gov) (self : Nat) (ps : PS) (round : Nat)
    (h : mapsInv ps) : mapsInv (ForgetConnection g self ps round) := by
  simp only [ForgetConnection]
  exact mapsInv_foldl _ (fun s _ hs => mapsInv_forgetConnection g self s round hs) _ _
    (mapsInv_update_history ps _ h)

theorem mapsInv_buildNotaryConnStep (g : Gov) (self round : Nat) :
    ∀ (s : PS) (cid : Nat), mapsInv s → mapsInv (buildNotaryConnStep g self round s cid) := by
  intro s cid h
  simp only [buildNotaryConnStep]
  cases g.notarySet round cid with
  | none => exact h
  | some pks =>
    dsimp only
    split
    · exact mapsInv_update_groups _ _ h
    · exact mapsInv_foldl _ (fun s a hs => mapsInv_addDirectPeer s a _ hs) _ s h

theorem mapsInv_forgetNotaryConnStep (g : Gov) (self round : Nat) :
    ∀ (s : PS) (cid : Nat), mapsInv s → mapsInv (forgetNotaryConnStep g self round s cid) := by
  intro s cid h
  simp only [forgetNotaryConnStep]
  cases g.notarySet round cid with
  | none => exact h
  | some pks =>
    dsimp only
    split
    · exact mapsInv_update_groups _ _ h
    · exact mapsInv_foldl _ (fun s a hs => mapsInv_removeDirectPeer s a _ hs) _ s h

theorem mapsInv_buildNotaryConn (g : Gov) (self : Nat) (ps : PS) (round : Nat)
    (h : mapsInv ps) : mapsInv (buildNotaryConn g self ps round) := by
  simp only [buildNotaryConn]
  split
  · exact h
  · exact mapsInv_foldl _ (mapsInv_buildNotaryConnStep g self round) _ _
      (mapsInv_update_notaryHistory ps _ h)

theorem mapsInv_forgetNotaryConn (g : Gov) (self : Nat) (ps : PS) (round : Nat)
    (h : mapsInv ps) : mapsInv (forgetNotaryConn g self ps round) := by
  simp only [forgetNotaryConn]
  exact mapsInv_foldl _ (mapsInv_forgetNotaryConnStep g self round) _ _ h

theorem mapsInv_ForgetNotaryConn (g : Gov) (self : Nat) (ps : PS) (round : Nat)
    (h : mapsInv ps) : mapsInv (ForgetNotaryConn g self ps round) := by
  simp only [ForgetNotaryConn]
  exact mapsInv_foldl _ (fun s r hs => mapsInv_forgetNotaryConn g self s r hs) _ _
    (mapsInv_update_notaryHistory ps _ h)

theorem mapsInv_buildDKGConn (g : Gov) (self : Nat) (ps : PS) (round : Nat)
    (h : mapsInv ps) : mapsInv (buildDKGConn g self ps round) := by
  simp only [buildDKGConn]
  cases g.dkgSet round with
  | none => exact h
  | some s0 =>
    dsimp only
    split
    · exact h
    · exact mapsInv_foldl _ (fun s a hs => mapsInv_addDirectPeer s a _ hs) _ _
        (mapsInv_update_dkgHistory ps _ h)

theorem mapsInv_forgetDKGConn (g : Gov) (self : Nat) (ps : PS) (round : Nat)
    (h : mapsInv ps) : mapsInv (forgetDKGConn g self ps round) := by
  simp only [forgetDKGConn]
  cases g.dkgSet round with
  | none => exact h
  | some s0 =>
    dsimp only
    split
    · exact h
    · exact mapsInv_foldl _ (fun s a hs => mapsInv_removeDirectPeer s a _ hs) _ _ h

theorem mapsInv_ForgetDKGConn (g : Gov) (self : Nat) (ps : PS) (round : Nat)
    (h : mapsInv ps) : mapsInv (ForgetDKGConn g self ps round) := by
  simp only [ForgetDKGConn]
  exact mapsInv_foldl _ (fun s r hs => mapsInv_forgetDKGConn g self s r hs) _ _
    (mapsInv_update_dkgHistory ps _ h)

theorem mapsInv_applyTopoOp (g : Gov) (self : Nat) (ps : PS) (op : TopoOp)
    (h : mapsInv ps) : mapsInv (applyTopoOp g self ps op) := by
  cases op with
  | buildConn r => exact mapsInv_buildConnection g self ps r h
  | forgetConn r => exact mapsInv_ForgetConnection g self ps r h
  | buildNotary r => exact mapsInv_buildNotaryConn g self ps r h
  | forgetNotary r => exact mapsInv_ForgetNotaryConn g self ps r h
  | buildDKG r => exact mapsInv_buildDKGConn g self ps r h
  | forgetDKG r => exact mapsInv_ForgetDKGConn g self ps r h

theorem mapsInv_applyLabelOp (ps : PS) (op : LabelOp)
    (h : mapsInv ps) : mapsInv (applyLabelOp ps op) := by
  cases op with
  | add pk label => exact mapsInv_addLabel ps pk label h
  | remove pk label => exact mapsInv_removeLabel ps pk label h

end PeerSet

section ClaimC10

/-- Claim C10: after any sequence of `addLabel` / `removeLabel` operations —
and hence after any sequence of the topology operations `BuildConnection`,
`ForgetConnection`, `BuildNotaryConn`, `ForgetNotaryConn`, `BuildDKGConn`,
`ForgetDKGConn`, which touch the two maps only through those two helpers —
the maps `peer2Labels` and `label2Peers` are exact inverses (`l` is in
`peer2Labels[p]` iff `p` is in `label2Peers[l]`) and neither map retains a
key bound to an empty set. -/
theorem peerLabelMaps_inverse_and_clean :
    (∀ ops : List PeerSet.LabelOp,
      PeerSet.mapsInv (PeerSet.applyLabelOps ops PeerSet.initPS)) ∧
    (∀ (g : PeerSet.Gov) (self : Nat) (ops : List PeerSet.TopoOp),
      PeerSet.mapsInv (PeerSet.applyTopoOps g self ops PeerSet.initPS)) := by
  constructor
  · intro ops
    exact PeerSet.mapsInv_foldl _ (fun s op hs => PeerSet.mapsInv_applyLabelOp s op hs)
      ops PeerSet.initPS PeerSet.mapsInv_initPS
  · intro g self ops
    exact PeerSet.mapsInv_foldl _ (fun s op hs => PeerSet.mapsInv_applyTopoOp g self s op hs)
      ops PeerSet.initPS PeerSet.mapsInv_initPS

end ClaimC10

section ClaimC3

/-- The nonces of `sender`'s transactions, in payload order. -/
def noncesOf (sender : Nat) (txs : List Dex.Tx) : List Nat :=
  (txs.filter (fun t => t.sender == sender)).map Dex.Tx.nonce

/-- The contiguous ascending run `first, first+1, ..., first+(len-1)` in
`uint64` arithmetic. -/
def modRun (first len : Nat) : List Nat :=
  (List.range len).map (fun i => (first + i) % Dex.u64Mod)

theorem modRun_succ (f k : Nat) :
    modRun f (k + 1) = modRun f k ++ [(f + k) % Dex.u64Mod] := by
  unfold modRun
  rw [List.range_succ, List.map_append]
  rfl

theorem modRun_one (f : Nat) (h : f < Dex.u64Mod) : modRun f 1 = [f] := by
  have h1 : modRun f 1 = [f % Dex.u64Mod] := rfl
  rw [h1, Nat.mod_eq_of_lt h]

theorem noncesOf_append (s : Nat) (pre : List Dex.Tx) (tx : Dex.Tx) :
    noncesOf s (pre ++ [tx]) =
      noncesOf s pre ++ (if tx.sender = s then [tx.nonce] else []) := by
  unfold noncesOf
  rw [List.filter_append, List.map_append]
  congr 1
  by_cases h : tx.sender = s
  · rw [if_pos h]
    rw [show (List.filter (fun t => t.sender == s) [tx]) = [tx] by
      simp [List.filter_cons, h]]
    rfl
  · rw [if_neg h]
    rw [show (List.filter (fun t => t.sender == s) [tx]) = [] by
      simp [List.filter_cons, h]]
    rfl

theorem noncesOf_ne_nil_iff (s : Nat) (txs : List Dex.Tx) :
    noncesOf s txs ≠ [] ↔ s ∈ txs.map Dex.Tx.sender := by
  unfold noncesOf
  constructor
  · intro h
    rcases List.exists_mem_of_ne_nil _ h with ⟨n, hn⟩
    rcases List.mem_map.mp hn with ⟨t, ht, _⟩
    rcases List.mem_filter.mp ht with ⟨htxs, hts⟩
    exact List.mem_map.mpr ⟨t, htxs, by simpa using hts⟩
  · intro h hnil
    rcases List.mem_map.mp h with ⟨t, ht, hts⟩
    have hmem : t ∈ txs.filter (fun t => t.sender == s) :=
      List.mem_filter.mpr ⟨ht, by simp [hts]⟩
    rw [List.map_eq_nil_iff] at hnil
    rw [hnil] at hmem
    exact absurd hmem (List.not_mem_nil t)

theorem assocLookup_assocSet {α : Type} (l : List (Nat × α)) (k s : Nat) (v : α) :
    Dex.assocLookup (Dex.assocSet l k v) s =
      if s = k then (Dex.assocLookup l k).map (fun _ => v)
      else Dex.assocLookup l s := by
  induction l with
  | nil => by_cases h : s = k <;> simp [Dex.assocSet, Dex.assocLookup, h]
  | cons e t ih =>
    obtain ⟨a, b⟩ := e
    have hset : Dex.assocSet ((a, b) :: t) k v =
        (if a = k then (k, v) else (a, b)) :: Dex.assocSet t k v := rfl
    have hlcons : ∀ (p : Nat × α) (t' : List (Nat × α)) (s' : Nat),
        Dex.assocLookup (p :: t') s' =
          if p.1 = s' then some p.2 else Dex.assocLookup t' s' :=
      fun p _ _ => by cases p; rfl
    rw [hset, hlcons, hlcons, hlcons]
    by_cases hak : a = k
    · simp only [if_pos hak]
      by_cases hks : k = s
      · simp only [if_pos hks, if_pos hks.symm]
        rfl
      · simp only [if_neg hks, if_neg (fun h : s = k => hks h.symm), ih,
          if_neg (fun h : a = s => hks (hak.symm.trans h))]
    · simp only [if_neg hak]
      by_cases has : a = s
      · simp only [if_pos has, if_neg (fun h : s = k => hak (has.trans h))]
      · simp only [if_neg has, ih]

theorem assocLookup_append {α : Type} (l1 l2 : List (Nat × α)) (s : Nat) :
    Dex.assocLookup (l1 ++ l2) s =
      (Dex.assocLookup l1 s).or (Dex.assocLookup l2 s) := by
  induction l1 with
  | nil => simp [Dex.assocLookup]
  | cons e t ih =>
    obtain ⟨a, b⟩ := e
    by_cases hsa : a = s
    · simp [Dex.assocLookup, hsa]
    · simp [Dex.assocLookup, hsa, ih]

theorem assocLookup_map_pair {α β : Type} (l : List (Nat × α)) (f : α → β) (s : Nat) :
    Dex.assocLookup (l.map (fun e => (e.1, f e.2))) s =
      (Dex.assocLookup l s).map f := by
  induction l with
  | nil => simp [Dex.assocLookup]
  | cons e t ih =>
    obtain ⟨a, b⟩ := e
    by_cases hsa : a = s
    · simp [Dex.assocLookup, hsa]
    · simp [Dex.assocLookup, hsa, ih]

theorem assocLookup_mem {α : Type} (l : List (Nat × α)) (s : Nat) (v : α)
    (h : Dex.assocLookup l s = some v) : (s, v) ∈ l := by
  induction l with
  | nil => simp [Dex.assocLookup] at h
  | cons e t ih =>
    obtain ⟨a, b⟩ := e
    by_cases hsa : a = s
    · rw [show Dex.assocLookup ((a, b) :: t) s = some b by
        simp [Dex.assocLookup, hsa]] at h
      cases h
      rw [hsa]
      exact List.mem_cons_self _ _
    · rw [show Dex.assocLookup ((a, b) :: t) s = Dex.assocLookup t s by
        simp [Dex.assocLookup, hsa]] at h
      exact List.mem_cons_of_mem _ (ih h)

/-- The accumulator invariant of `validateNonce`: after processing a prefix
`pre`, an address is in the map iff it has appeared, its recorded first/last
nonces bound a contiguous `uint64` run, and the run is exactly its nonces in
payload order. -/
theorem validateNonceGo_inv :
    ∀ (txs pre : List Dex.Tx) (acc res : List (Nat × Nat × Nat)),
    (∀ t ∈ txs, t.nonce < Dex.u64Mod) →
    (∀ s, Dex.assocLookup acc s = none → noncesOf s pre = []) →
    (∀ s f l, Dex.assocLookup acc s = some (f, l) →
      ∃ k, noncesOf s pre = modRun f (k + 1) ∧ l = (f + k) % Dex.u64Mod) →
    Dex.validateNonceGo txs acc = some res →
    (∀ s, Dex.assocLookup res s = none → noncesOf s (pre ++ txs) = []) ∧
    (∀ s f l, Dex.assocLookup res s = some (f, l) →
      ∃ k, noncesOf s (pre ++ txs) = modRun f (k + 1) ∧ l = (f + k) % Dex.u64Mod) := by
  intro txs
  induction txs with
  | nil =>
    intro pre acc res _ hP0 hP1 hgo
    rw [Dex.validateNonceGo] at hgo
    cases hgo
    rw [List.append_nil]
    exact ⟨hP0, hP1⟩
  | cons tx rest ih =>
    intro pre acc res hwf hP0 hP1 hgo
    rw [Dex.validateNonceGo] at hgo
    by_cases hsig : tx.sigOK = false
    · rw [if_pos hsig] at hgo
      cases hgo
    rw [if_neg hsig] at hgo
    have hpre : pre ++ tx :: rest = (pre ++ [tx]) ++ rest := by
      rw [List.append_assoc]
      rfl
    rw [hpre]
    have hwf' : ∀ t ∈ rest, t.nonce < Dex.u64Mod :=
      fun t ht => hwf t (List.mem_cons_of_mem tx ht)
    have hwftx : tx.nonce < Dex.u64Mod := hwf tx (List.mem_cons_self tx rest)
    cases hlook : Dex.assocLookup acc tx.sender with
    | some fl =>
      rw [hlook] at hgo
      dsimp only at hgo
      by_cases hcond : (fl.2 + 1) % Dex.u64Mod ≠ tx.nonce
      · rw [if_pos hcond] at hgo
        cases hgo
      rw [if_neg hcond] at hgo
      push_neg at hcond
      refine ih (pre ++ [tx]) (Dex.assocSet acc tx.sender (fl.1, tx.nonce)) res hwf'
        ?_ ?_ hgo
      · intro s hnone
        rw [assocLookup_assocSet] at hnone
        by_cases hs : s = tx.sender
        · rw [if_pos hs, hlook] at hnone
          cases hnone
        · rw [if_neg hs] at hnone
          rw [noncesOf_append, if_neg (fun h => hs h.symm), List.append_nil]
          exact hP0 s hnone
      · intro s f l hsome
        rw [assocLookup_assocSet] at hsome
        by_cases hs : s = tx.sender
        · rw [if_pos hs, hlook] at hsome
          have hsome' : some (fl.1, tx.nonce) = some (f, l) := hsome
          cases hsome'
          rcases hP1 tx.sender fl.1 fl.2 (by rw [hlook]) with ⟨k, hrun, hlast⟩
          refine ⟨k + 1, ?_, ?_⟩
          · rw [hs, noncesOf_append, if_pos rfl, hrun, modRun_succ fl.1 (k + 1)]
            have htx : tx.nonce = (fl.1 + (k + 1)) % Dex.u64Mod := by
              rw [← hcond, hlast, Nat.mod_add_mod, Nat.add_assoc]
            rw [htx]
          · rw [← hcond, hlast, Nat.mod_add_mod, Nat.add_assoc]
        · rw [if_neg hs] at hsome
          rcases hP1 s f l hsome with ⟨k, hrun, hlast⟩
          exact ⟨k, by rw [noncesOf_append, if_neg (fun h => hs h.symm),
            List.append_nil, hrun], hlast⟩
    | none =>
      rw [hlook] at hgo
      dsimp only at hgo
      refine ih (pre ++ [tx]) (acc ++ [(tx.sender, tx.nonce, tx.nonce)]) res hwf'
        ?_ ?_ hgo
      · intro s hnone
        rw [assocLookup_append, Option.or_eq_none] at hnone
        obtain ⟨hn1, hn2⟩ := hnone
        have hs : ¬ s = tx.sender := by
          intro h
          rw [h] at hn2
          simp [Dex.assocLookup] at hn2
        rw [noncesOf_append, if_neg (fun h => hs h.symm), List.append_nil]
        exact hP0 s hn1
      · intro s f l hsome
        rw [assocLookup_append] at hsome
        cases hacc : Dex.assocLookup acc s with
        | some v =>
          have hs : ¬ s = tx.sender := by
            intro h
            rw [h, hlook] at hacc
            cases hacc
          rw [hacc] at hsome
          have hsome' : some v = some (f, l) := hsome
          cases hsome'
          rcases hP1 s f l hacc with ⟨k, hrun, hlast⟩
          exact ⟨k, by rw [noncesOf_append, if_neg (fun h => hs h.symm),
            List.append_nil, hrun], hlast⟩
        | none =>
          rw [hacc] at hsome
          simp only [Option.none_or] at hsome
          have hs : s = tx.sender ∧ f = tx.nonce ∧ l = tx.nonce := by
            by_cases h : s = tx.sender
            · rw [show Dex.assocLookup [(tx.sender, tx.nonce, tx.nonce)] s =
                some (tx.nonce, tx.nonce) by simp [Dex.assocLookup, h]] at hsome
              cases hsome
              exact ⟨h, rfl, rfl⟩
            · have hns : ¬ tx.sender = s := fun hc => h hc.symm
              rw [show Dex.assocLookup [(tx.sender, tx.nonce, tx.nonce)] s =
                none by simp [Dex.assocLookup, hns]] at hsome
              cases hsome
          obtain ⟨hs, hf, hl⟩ := hs
          subst hs; subst hf; subst hl
          refine ⟨0, ?_, by rw [Nat.add_zero, Nat.mod_eq_of_lt hwftx]⟩
          rw [noncesOf_append, if_pos rfl, hP0 tx.sender hacc, List.nil_append,
            modRun_one _ hwftx]

/-- What a successful `validateNonce` guarantees: the returned map covers
exactly the senders appearing in the payload, and each sender's nonces form a
contiguous `uint64` run starting at its recorded first nonce. -/
theorem validateNonce_spec (txs : List Dex.Tx) (m : List (Nat × Nat))
    (hwf : ∀ t ∈ txs, t.nonce < Dex.u64Mod)
    (hvn : Dex.validateNonce txs = some m) :
    (∀ s, Dex.assocLookup m s = none → noncesOf s txs = []) ∧
    (∀ s f, Dex.assocLookup m s = some f →
      (s, f) ∈ m ∧ ∃ k, noncesOf s txs = modRun f (k + 1)) := by
  unfold Dex.validateNonce at hvn
  cases hgo : Dex.validateNonceGo txs [] with
  | none => rw [hgo] at hvn; cases hvn
  | some res =>
    rw [hgo] at hvn
    have hvn' : some (res.map (fun e => (e.1, e.2.1))) = some m := hvn
    cases hvn'
    have hinv := validateNonceGo_inv txs [] [] res hwf
      (fun _ _ => rfl) (fun _ _ _ h => by cases h) hgo
    rw [List.nil_append] at hinv
    obtain ⟨hi0, hi1⟩ := hinv
    constructor
    · intro s hnone
      rw [assocLookup_map_pair] at hnone
      refine hi0 s ?_
      cases hres : Dex.assocLookup res s with
      | none => rfl
      | some fl => rw [hres] at hnone; cases hnone
    · intro s f hsome
      rw [assocLookup_map_pair] at hsome
      cases hres : Dex.assocLookup res s with
      | none => rw [hres] at hsome; cases hsome
      | some fl =>
        rw [hres] at hsome
        have hf : some fl.1 = some f := hsome
        cases hf
        constructor
        · refine assocLookup_mem _ _ _ ?_
          rw [assocLookup_map_pair, hres]
          rfl
        · rcases hi1 s fl.1 fl.2 (by rw [hres]) with ⟨k, hrun, _⟩
          exact ⟨k, hrun⟩

/-- Inversion of `VerifyBlock = OK` on a non-empty payload: the run reached
the nonce-validation stage, so `validateNonce` succeeded and every recorded
sender passed the chain-routing and expected-nonce checks. -/
theorem verifyBlock_ok_inversion (w : Dex.World) (b : Dex.CoreBlock)
    (txs : List Dex.Tx) (root : Nat) (st : Dex.StateView)
    (hok : Dex.verifyBlock w b = .verifyOK)
    (hpay : b.payload ≠ [])
    (hdec : w.decodeTxs b.payload = some txs)
    (hroot : w.chainRoot b.position.chainID = some root)
    (hst : w.stateAt root = some st) :
    ∃ m, Dex.validateNonce txs = some m ∧
      ∀ e ∈ m, Dex.addrBelongsToChain e.1 (w.numChains b.position.round)
          b.position.chainID = true ∧
        Dex.expectNonce w b.position.chainID st e.1 = e.2 := by
  unfold Dex.verifyBlock at hok
  cases h1 : w.decodeHashWitness b.witnessData with
  | none => rw [h1] at hok; cases hok
  | some wh =>
  rw [h1] at hok
  dsimp only at hok
  by_cases h2 : w.currentNumber < b.witnessHeight
  · rw [if_pos h2] at hok; cases hok
  rw [if_neg h2] at hok
  cases h3 : w.blockByNumber b.witnessHeight with
  | none => rw [h3] at hok; cases hok
  | some wb =>
  rw [h3] at hok
  dsimp only at hok
  by_cases h4 : wb.hash ≠ wh
  · rw [if_pos h4] at hok; cases hok
  rw [if_neg h4] at hok
  by_cases h5 : (w.stateAt wb.root).isNone = true
  · rw [if_pos h5] at hok; cases hok
  rw [if_neg h5] at hok
  by_cases h6 : b.position.height ≠ 0 ∧
      w.chainLastConfirmedHeight b.position.chainID ≠ some (b.position.height - 1)
  · rw [if_pos h6] at hok; cases hok
  rw [if_neg h6] at hok
  by_cases h7 : 0 < b.position.round ∧
      w.numChains (b.position.round - 1) ≠ w.numChains b.position.round ∧
      w.deliveredRound < b.position.round
  · rw [if_pos h7, if_pos (List.length_pos.mpr hpay)] at hok
    cases hok
  rw [if_neg h7, hroot] at hok
  dsimp only at hok
  rw [hst] at hok
  dsimp only at hok
  rw [if_neg hpay, hdec] at hok
  dsimp only at hok
  by_cases h8 : txs.all (·.sigOK) = false
  · rw [if_pos h8] at hok; cases hok
  rw [if_neg h8] at hok
  cases h9 : Dex.validateNonce txs with
  | none => rw [h9] at hok; cases hok
  | some m =>
  rw [h9] at hok
  dsimp only at hok
  by_cases h10 : m.all (fun e =>
      Dex.addrBelongsToChain e.1 (w.numChains b.position.round) b.position.chainID &&
      (Dex.expectNonce w b.position.chainID st e.1 == e.2)) = false
  · rw [if_pos h10] at hok; cases hok
  refine ⟨m, rfl, ?_⟩
  have hall : m.all (fun e =>
      Dex.addrBelongsToChain e.1 (w.numChains b.position.round) b.position.chainID &&
      (Dex.expectNonce w b.position.chainID st e.1 == e.2)) = true := by
    cases hb : m.all (fun e =>
        Dex.addrBelongsToChain e.1 (w.numChains b.position.round) b.position.chainID &&
        (Dex.expectNonce w b.position.chainID st e.1 == e.2))
    · exact absurd hb h10
    · rfl
  intro e he
  have hthis := List.all_eq_true.mp hall e he
  rcases Bool.and_eq_true_iff.mp hthis with ⟨hb1, hb2⟩
  exact ⟨hb1, beq_iff_eq.mp hb2⟩

/-- Claim C3: for every block whose `VerifyBlock` result is OK with a
non-empty payload and for every sender `s` appearing in that payload, the
nonces of `s`'s transactions in payload order form the contiguous ascending
(`uint64`) run `n, n+1, ..., n+k` where `n` is the expected next nonce of
`s`: the last nonce of `s` in confirmed-but-undelivered blocks on that chain
plus one when such a nonce exists, otherwise the committed state nonce of
`s` at `chain_root` (`expectNonce`). -/
theorem verifyBlock_ok_nonce_run (w : Dex.World) (b : Dex.CoreBlock)
    (txs : List Dex.Tx) (root : Nat) (st : Dex.StateView) (s : Nat)
    (hwf : ∀ t ∈ txs, t.nonce < Dex.u64Mod)
    (hok : Dex.verifyBlock w b = .verifyOK)
    (hpay : b.payload ≠ [])
    (hdec : w.decodeTxs b.payload = some txs)
    (hroot : w.chainRoot b.position.chainID = some root)
    (hst : w.stateAt root = some st)
    (hs : s ∈ txs.map Dex.Tx.sender) :
    ∃ k, noncesOf s txs =
      modRun (Dex.expectNonce w b.position.chainID st s) (k + 1) := by
  rcases verifyBlock_ok_inversion w b txs root st hok hpay hdec hroot hst with
    ⟨m, hvn, hprop⟩
  rcases validateNonce_spec txs m hwf hvn with ⟨hs0, hs1⟩
  cases hlook : Dex.assocLookup m s with
  | none =>
    exact absurd (hs0 s hlook) ((noncesOf_ne_nil_iff s txs).mpr hs)
  | some f =>
    rcases hs1 s f hlook with ⟨hmem, k, hrun⟩
    have hexp : Dex.expectNonce w b.position.chainID st s = f := (hprop (s, f) hmem).2
    rw [hexp]
    exact ⟨k, hrun⟩

/-- Two transactions from sender 7 with consecutive nonces 5 and 6. -/
def txA : Dex.Tx :=
  { sender := 7, sigOK := true, nonce := 5, gas := 21000, gasPrice := 1,
    value := 0, data := [], toNone := false }

/-- The successor transaction of `txA`. -/
def txB : Dex.Tx := { txA with nonce := 6 }

/-- `wBase` whose payload decoder yields `[txA, txB]`. -/
def wOK : Dex.World := { wBase with decodeTxs := fun _ => some [txA, txB] }

/-- A block at height 4 (previous confirmed height 3) carrying the payload
that decodes to `[txA, txB]`, witnessing height 10. -/
def bOK : Dex.CoreBlock :=
  { position := { round := 0, chainID := 0, height := 4 }, payload := [1],
    witnessHeight := 10, witnessData := [] }

/-- Witness for C3: `VerifyBlock` accepts `bOK` in `wOK`, and sender 7's
nonces form the run `5, 6` starting at its committed state nonce 5. -/
theorem verifyBlock_ok_nonce_run_witness :
    Dex.verifyBlock wOK bOK = .verifyOK ∧
    (∃ k, noncesOf 7 [txA, txB] = modRun 5 (k + 1)) ∧
    noncesOf 7 [txA, txB] = [5, 6] := by
  refine ⟨by decide, ?_, by decide⟩
  exact verifyBlock_ok_nonce_run wOK bOK [txA, txB] 0
    { balance := fun _ => 1000000000, nonce := fun _ => 5 } 7
    (by decide) (by decide) (by decide) rfl rfl rfl (by decide)

end ClaimC3

section ClaimC4

/-- `wOK` with the current (latest executed) block's gas limit lowered to
21000 — the governance block gas limit for the round stays 10^6. -/
def wLow : Dex.World := { wOK with currentGasLimit := 21000 }

/-- Claim C4 counterexample: in `wLow` the payload's total gas 42000 is well
within the governance block gas limit of the block's round (10^6), and every
other check passes (the same block verifies OK when only the current block's
gas limit is raised back) — yet `VerifyBlock` returns Invalid, because the
code compares the running gas sum against `CurrentBlock().GasLimit()`,
not against the governance limit at the block's round. -/
theorem verifyBlock_gas_against_current_not_governance :
    Dex.verifyBlock wLow bOK = .verifyInvalidBlock ∧
    wLow.govBlockGasLimit bOK.position.round = 1000000 ∧
    ([txA, txB].map Dex.Tx.gas).sum = 42000 ∧
    Dex.verifyBlock wOK bOK = .verifyOK ∧
    wOK.govBlockGasLimit bOK.position.round = 1000000 ∧
    wOK.currentGasLimit = 1000000 ∧ wLow.currentGasLimit = 21000 := by
  refine ⟨by decide, by decide, by decide, by decide, by decide, by decide, by decide⟩

/-- The transaction loop of `VerifyBlock` succeeds iff the accumulated gas
stays within the limit, provided signatures, intrinsic-gas floors and
balances all suffice. -/
theorem verifyTxLoop_spec (w : Dex.World) (limit : Nat) :
    ∀ (txs : List Dex.Tx) (balances : List (Nat × Int)) (gasUsed : Nat),
    (∀ t ∈ txs, t.sigOK = true) →
    (∀ t ∈ txs, ∃ ig, w.intrinsicGas t.data t.toNone = some ig ∧ ig ≤ t.gas) →
    (∀ s, (((txs.filter (fun t => t.sender == s)).map Dex.Tx.cost).sum : Int) ≤
      (Dex.assocLookup balances s).getD 0) →
    gasUsed ≤ limit →
    (Dex.verifyTxLoop w limit txs balances gasUsed = true ↔
      gasUsed + (txs.map Dex.Tx.gas).sum ≤ limit) := by
  intro txs
  induction txs with
  | nil =>
    intro balances gasUsed _ _ _ hg
    simpa [Dex.verifyTxLoop] using hg
  | cons tx rest ih =>
    intro balances gasUsed hsig hintr hbal hg
    have hsigtx : tx.sigOK = true := hsig tx (List.mem_cons_self tx rest)
    rcases hintr tx (List.mem_cons_self tx rest) with ⟨ig, hig, higle⟩
    have hbaltx := hbal tx.sender
    rw [List.filter_cons, if_pos (by simp)] at hbaltx
    rw [List.map_cons, List.sum_cons] at hbaltx
    have hrest : ∀ s,
        (((rest.filter (fun t => t.sender == s)).map Dex.Tx.cost).sum : Int) ≤
          (Dex.assocLookup (Dex.assocSet balances tx.sender
            ((Dex.assocLookup balances tx.sender).getD 0 - (tx.cost : Int))) s).getD 0 := by
      intro s
      rw [assocLookup_assocSet]
      by_cases hs : s = tx.sender
      · rw [hs, if_pos rfl]
        cases hlk : Dex.assocLookup balances tx.sender with
        | none =>
          rw [hlk] at hbaltx
          simp only [Option.getD_none, Option.map_none'] at *
          omega
        | some v =>
          rw [hlk] at hbaltx
          simp only [Option.getD_some, Option.map_some'] at hbaltx ⊢
          omega
      · rw [if_neg hs]
        have hb2 := hbal s
        rw [List.filter_cons,
          if_neg (fun hb => hs (beq_iff_eq.mp hb).symm)] at hb2
        exact hb2
    have hloop : Dex.verifyTxLoop w limit (tx :: rest) balances gasUsed =
        (if limit < gasUsed + tx.gas then false
         else Dex.verifyTxLoop w limit rest
           (Dex.assocSet balances tx.sender
             ((Dex.assocLookup balances tx.sender).getD 0 - (tx.cost : Int)))
           (gasUsed + tx.gas)) := by
      rw [Dex.verifyTxLoop]
      rw [if_neg (by rw [hsigtx]; exact fun h => by cases h)]
      rw [hig]
      dsimp only
      rw [if_neg (not_lt.mpr higle)]
      rw [if_neg (by
        have hsum : (0 : Int) ≤
            (((rest.filter (fun t => t.sender == tx.sender)).map Dex.Tx.cost).sum : Int) :=
          Int.natCast_nonneg _
        omega)]
    rw [hloop]
    by_cases hgl : limit < gasUsed + tx.gas
    · rw [if_pos hgl]
      constructor
      · intro h; cases h
      · intro h
        exfalso
        rw [List.map_cons, List.sum_cons] at h
        omega
    · rw [if_neg hgl]
      rw [ih _ (gasUsed + tx.gas)
        (fun t ht => hsig t (List.mem_cons_of_mem tx ht))
        (fun t ht => hintr t (List.mem_cons_of_mem tx ht))
        hrest (not_lt.mp hgl)]
      rw [List.map_cons, List.sum_cons]
      omega

/-- With every pre-loop stage pinned down, `VerifyBlock` reduces to the
transaction loop. -/
theorem verifyBlock_reaches_loop (w : Dex.World) (b : Dex.CoreBlock)
    (txs : List Dex.Tx) (wh : Nat) (wb : Dex.ChainBlock) (root : Nat)
    (st : Dex.StateView) (m : List (Nat × Nat))
    (h1 : w.decodeHashWitness b.witnessData = some wh)
    (h2 : ¬ w.currentNumber < b.witnessHeight)
    (h3 : w.blockByNumber b.witnessHeight = some wb)
    (h4 : wb.hash = wh)
    (h5 : (w.stateAt wb.root).isSome)
    (h6 : ¬ (b.position.height ≠ 0 ∧
      w.chainLastConfirmedHeight b.position.chainID ≠ some (b.position.height - 1)))
    (h7 : ¬ (0 < b.position.round ∧
      w.numChains (b.position.round - 1) ≠ w.numChains b.position.round ∧
      w.deliveredRound < b.position.round))
    (hroot : w.chainRoot b.position.chainID = some root)
    (hst : w.stateAt root = some st)
    (hpay : b.payload ≠ [])
    (hdec : w.decodeTxs b.payload = some txs)
    (h8 : txs.all (·.sigOK) = true)
    (h9 : Dex.validateNonce txs = some m)
    (h10 : m.all (fun e =>
      Dex.addrBelongsToChain e.1 (w.numChains b.position.round) b.position.chainID &&
      (Dex.expectNonce w b.position.chainID st e.1 == e.2)) = true) :
    Dex.verifyBlock w b =
      (if Dex.verifyTxLoop w w.currentGasLimit txs
          (Dex.addressesBalance w b.position.chainID st m) 0 = true then
        Dex.BlockVerifyStatus.verifyOK
      else Dex.BlockVerifyStatus.verifyInvalidBlock) := by
  unfold Dex.verifyBlock
  rw [h1]
  dsimp only
  rw [if_neg h2, h3]
  dsimp only
  rw [if_neg (not_not_intro h4),
    if_neg (by
      intro hN
      rw [Option.isNone_iff_eq_none] at hN
      rw [hN] at h5
      simp at h5),
    if_neg h6, if_neg h7, hroot]
  dsimp only
  rw [hst]
  dsimp only
  rw [if_neg hpay, hdec]
  dsimp only
  rw [if_neg (by rw [h8]; exact fun h => by cases h), h9]
  dsimp only
  rw [if_neg (by rw [h10]; exact fun h => by cases h)]

/-- Claim C4 (amended): with every non-gas check passing, `VerifyBlock` on a
non-empty payload returns Invalid exactly when the cumulative sum of
`tx.gas` over the payload exceeds the *current (most recently executed)
block's* gas limit, `CurrentBlock().GasLimit()` — not the
governance-configured block gas limit at the block's round.  (The two agree
only because `BlockDelivered` stamps every executed block with the
governance limit of the round it was delivered in.) -/
theorem verifyBlock_gas_limit_spec (w : Dex.World) (b : Dex.CoreBlock)
    (txs : List Dex.Tx) (wh : Nat) (wb : Dex.ChainBlock) (root : Nat)
    (st : Dex.StateView) (m : List (Nat × Nat))
    (h1 : w.decodeHashWitness b.witnessData = some wh)
    (h2 : ¬ w.currentNumber < b.witnessHeight)
    (h3 : w.blockByNumber b.witnessHeight = some wb)
    (h4 : wb.hash = wh)
    (h5 : (w.stateAt wb.root).isSome)
    (h6 : ¬ (b.position.height ≠ 0 ∧
      w.chainLastConfirmedHeight b.position.chainID ≠ some (b.position.height - 1)))
    (h7 : ¬ (0 < b.position.round ∧
      w.numChains (b.position.round - 1) ≠ w.numChains b.position.round ∧
      w.deliveredRound < b.position.round))
    (hroot : w.chainRoot b.position.chainID = some root)
    (hst : w.stateAt root = some st)
    (hpay : b.payload ≠ [])
    (hdec : w.decodeTxs b.payload = some txs)
    (hsig : ∀ t ∈ txs, t.sigOK = true)
    (h9 : Dex.validateNonce txs = some m)
    (h10 : m.all (fun e =>
      Dex.addrBelongsToChain e.1 (w.numChains b.position.round) b.position.chainID &&
      (Dex.expectNonce w b.position.chainID st e.1 == e.2)) = true)
    (hintr : ∀ t ∈ txs, ∃ ig, w.intrinsicGas t.data t.toNone = some ig ∧ ig ≤ t.gas)
    (hbal : ∀ s, (((txs.filter (fun t => t.sender == s)).map Dex.Tx.cost).sum : Int) ≤
      (Dex.assocLookup (Dex.addressesBalance w b.position.chainID st m) s).getD 0) :
    Dex.verifyBlock w b =
      (if (txs.map Dex.Tx.gas).sum ≤ w.currentGasLimit then
        Dex.BlockVerifyStatus.verifyOK
      else Dex.BlockVerifyStatus.verifyInvalidBlock) := by
  rw [verifyBlock_reaches_loop w b txs wh wb root st m h1 h2 h3 h4 h5 h6 h7 hroot
    hst hpay hdec (List.all_eq_true.mpr (fun t ht => hsig t ht)) h9 h10]
  have hloop := verifyTxLoop_spec w w.currentGasLimit txs
    (Dex.addressesBalance w b.position.chainID st m) 0 hsig hintr hbal
    (Nat.zero_le _)
  by_cases hsum : (txs.map Dex.Tx.gas).sum ≤ w.currentGasLimit
  · rw [if_pos hsum, if_pos (hloop.mpr (by omega))]
  · rw [if_neg hsum, if_neg (fun hl => hsum (by have := hloop.mp hl; omega))]

/-- Witness for the amended C4 at the counterexample input: in `wLow` the
total gas 42000 exceeds the current block's gas limit 21000, so the amended
theorem yields Invalid (all other checks passing). -/
theorem verifyBlock_gas_limit_spec_witness :
    Dex.verifyBlock wLow bOK = .verifyInvalidBlock := by
  have h := verifyBlock_gas_limit_spec wLow bOK [txA, txB] 99
    { hash := 99, root := 0 } 0
    { balance := fun _ => 1000000000, nonce := fun _ => 5 } [(7, 5)]
    rfl (by decide) rfl rfl (by decide) (by decide) (by decide) rfl rfl
    (by decide) rfl
    (by intro t ht; fin_cases ht <;> decide)
    (by decide)
    (by decide)
    (by intro t ht; refine ⟨21000, rfl, ?_⟩; fin_cases ht <;> decide)
    (by
      intro s
      by_cases hs : s = 7
      · subst hs; decide
      · have h7s : ¬ (7 : Nat) = s := fun h => hs h.symm
        rw [show ([txA, txB].filter (fun t => t.sender == s)) = [] by
          simp [txA, txB, beq_eq_false_iff_ne.mpr h7s]]
        rw [show Dex.assocLookup
            (Dex.addressesBalance wLow bOK.position.chainID
              { balance := fun _ => 1000000000, nonce := fun _ => 5 } [(7, 5)]) s =
            none by simp [Dex.addressesBalance, Dex.assocLookup, wLow, wOK, wBase, h7s]]
        decide)
  rw [h]
  decide

end ClaimC4
